import Mathlib

/-!
# gmailfilters: reconciliation engine

A shallow embedding of `filter.go`, `labels.go`, `export.go` and the action of
`main.go`, followed by theorems about it.

Conventions of the embedding

* Go strings are Lean strings; `int64` is `Int` (the size threshold is only copied).
* The zero value of a Go struct is the structure with every field at its default.
* `*label` pointers are addresses into a pool of label objects (`labelMap.pool`);
  `nil` is `none`.
* The package-level `api` handle is a value of type `Remote`: every remote call is
  appended to the trace of the `World` and answered by the handle, which sees the
  trace of the calls made before it.
* `strings.ToLower` is a parameter (`lower`) of every definition that uses it.
* A function that returns `(T, error)` returns `Except Err T` together with the
  world it leaves behind; the world is returned on failure too.
-/

namespace Gmailfilters

/-! ## Records of `filter.go` -/

/-- The struct `filterCriteria`. -/
structure filterCriteria where
  ExcludeChats : Bool := false
  From : String := ""
  HasAttachment : Bool := false
  NegatedQuery : String := ""
  Query : String := ""
  Size : Int := 0
  SizeComparison : String := ""
  Subject : String := ""
  To : String := ""
deriving DecidableEq, Repr

/-- The struct `filterAction`. -/
structure filterAction where
  Label : String := ""
  Forward : String := ""
  Archive : Bool := false
  MarkRead : Bool := false
  Delete : Bool := false
deriving DecidableEq, Repr

/-- The struct `filter`. -/
structure filter where
  Criteria : filterCriteria := {}
  Action : filterAction := {}
deriving DecidableEq, Repr

/-- The method `filterCriteria.isValid`. -/
def filterCriteria.isValid (c : filterCriteria) : Bool :=
  if c.Query = "" ∧ c.NegatedQuery = "" ∧ c.From = "" ∧ c.Subject = "" ∧ c.To = "" then
    false
  else
    true

/-- The method `filterAction.isValid`. -/
def filterAction.isValid (a : filterAction) : Bool :=
  if a.Label = "" ∧ a.Forward = "" ∧ a.Archive = false ∧ a.MarkRead = false ∧ a.Delete = false then
    false
  else
    true

/-- The method `filter.IsValid`. -/
def filter.IsValid (f : filter) : Bool :=
  f.Criteria.isValid && f.Action.isValid

/-! ## Records of `labels.go` -/

/-- The struct `label`; the field `Type` is spelled `Type_`. -/
structure label where
  Id : String := ""
  Name : String := ""
  BackgroundColor : String := ""
  TextColor : String := ""
  LabelListVisibility : String := ""
  MessageListVisibility : String := ""
  Type_ : String := ""
deriving DecidableEq, Repr

/-- The method `label.Equals`: `fixed` is a copy of `o` whose empty visibilities are
filled with "show" where `l` carries "show"; the result is the struct comparison
`*l == fixed`. -/
def label.Equals (l o : label) : Bool :=
  let fixed := o
  let fixed :=
    if l.MessageListVisibility = "show" ∧ fixed.MessageListVisibility = "" then
      { fixed with MessageListVisibility := "show" }
    else fixed
  let fixed :=
    if l.LabelListVisibility = "show" ∧ fixed.LabelListVisibility = "" then
      { fixed with LabelListVisibility := "show" }
    else fixed
  decide (l = fixed)

/-- The method `label.IsValid`. -/
def label.IsValid (l : label) : Bool :=
  if l.Id = "" ∨ l.Name = "" then false
  else if l.LabelListVisibility ≠ "" ∧ l.LabelListVisibility ≠ "hide" ∧
      l.LabelListVisibility ≠ "show" ∧ l.LabelListVisibility ≠ "showifunread" then false
  else if l.MessageListVisibility ≠ "" ∧ l.MessageListVisibility ≠ "hide" ∧
      l.MessageListVisibility ≠ "show" then false
  else if l.Type_ ≠ "user" ∧ l.Type_ ≠ "system" then false
  else if (l.BackgroundColor ≠ "" ∧ l.TextColor = "") ∨
      (l.TextColor ≠ "" ∧ l.BackgroundColor = "") then false
  else true

/-! ## Types of the Gmail client library

Only the fields this program reads or writes are kept. -/

/-- The struct `gmail.LabelColor`. -/
structure gmailLabelColor where
  BackgroundColor : String := ""
  TextColor : String := ""
deriving DecidableEq, Repr

/-- The struct `gmail.Label`; `Color` is a pointer. -/
structure gmailLabel where
  Color : Option gmailLabelColor := none
  Id : String := ""
  LabelListVisibility : String := ""
  MessageListVisibility : String := ""
  Name : String := ""
  Type_ : String := ""
  NullFields : List String := []
deriving DecidableEq, Repr

/-- The struct `gmail.FilterAction`. -/
structure gmailFilterAction where
  AddLabelIds : List String := []
  Forward : String := ""
  RemoveLabelIds : List String := []
deriving DecidableEq, Repr

/-- The struct `gmail.FilterCriteria`. -/
structure gmailFilterCriteria where
  ExcludeChats : Bool := false
  From : String := ""
  HasAttachment : Bool := false
  NegatedQuery : String := ""
  Query : String := ""
  Size : Int := 0
  SizeComparison : String := ""
  Subject : String := ""
  To : String := ""
deriving DecidableEq, Repr

/-- The struct `gmail.Filter`; `Action` and `Criteria` are pointers. -/
structure gmailFilter where
  Action : Option gmailFilterAction := none
  Criteria : Option gmailFilterCriteria := none
  Id : String := ""
deriving DecidableEq, Repr

/-! ## The remote API and the errors -/

/-- One remote call, with the request it carries. -/
inductive Call where
  | labelsList
  | labelsCreate (req : gmailLabel)
  | labelsPatch (id : String) (req : gmailLabel)
  | filtersList
  | filtersCreate (req : gmailFilter)
  | filtersDelete (id : String)
deriving DecidableEq, Repr

/-- The answers of the remote side. Each answer may depend on the calls made before
(the first argument) and on the request; a failure carries the remote's message. -/
structure Remote where
  labelsList : List Call → Except String (List gmailLabel)
  labelsCreate : List Call → gmailLabel → Except String gmailLabel
  labelsPatch : List Call → String → gmailLabel → Except String Unit
  filtersList : List Call → Except String (List gmailFilter)
  filtersCreate : List Call → gmailFilter → Except String Unit
  filtersDelete : List Call → String → Except String Unit

/-- The errors the program returns, one constructor for each place that builds one. -/
inductive Err where
  | criteriaInvalid (c : filterCriteria)
  | actionInvalid (a : filterAction)
  | creatingFilter (f : gmailFilter) (msg : String)
  | readingFilterFile (file : String) (msg : String)
  | filterInvalid (f : filter)
  | listingFilters (msg : String)
  | deletingFilter (id : String) (msg : String)
  | remote (msg : String)
  | multipleAddLabelIds (ids : List String)
  | unknownLabelID (id : String)
  | importedFilterInvalid (f : filter)
  | exportingFile (msg : String)
  | downloadingFilters (e : Err)
  | updatingLabel (name : String) (msg : String)
  | listingLabels (msg : String)
  | creatingLabel (name : String) (msg : String)
  | decodingLabels (msg : String)
  | labelInvalid (name : String)
  | mustSetFiltersFile
  | mustSetLabelsFile
  | nilPointer
deriving DecidableEq, Repr

deriving instance DecidableEq for Except

/-- What an encoder wrote: the sequence of records of a filters file or of a labels
file. -/
inductive Encoded where
  | filterfile (Filter : List filter)
  | labelFile (Label : List label)
deriving DecidableEq, Repr

/-- The local files, as far as the program sees them. `filters file` is the outcome
of reading the filters file and decoding its TOML (with the check for undecoded
fields), `labels file` the same for the labels file; `create` and `encode` are the
outcomes of `os.Create` and of `Encoder.Encode` on a file. -/
structure Files where
  filters : String → Except Err (List filter)
  labels : String → Except Err (List label)
  create : String → Except String Unit
  encode : String → Except String Unit

/-! ## The label directory -/

/-- The struct `labelMap`: `pool` holds the label objects, `byName` and `byID` map
a key to the address of one of them. A Go map is a list of bindings with distinct
keys. -/
structure labelMap where
  pool : List label := []
  byName : List (String × Nat) := []
  byID : List (String × Nat) := []
deriving DecidableEq, Repr

/-- Reading a Go map: `m[k]`, `none` when the key is missing. -/
def mapGet : List (String × Nat) → String → Option Nat
  | [], _ => none
  | (k', v) :: rest, k => if k' = k then some v else mapGet rest k

/-- Writing a Go map: `m[k] = v`. -/
def mapSet (m : List (String × Nat)) (k : String) (v : Nat) : List (String × Nat) :=
  (k, v) :: m.filter (fun e => decide (e.1 ≠ k))

/-- The label object at an address: `*p`. -/
def labelMap.deref (m : labelMap) (p : Nat) : label :=
  m.pool.getD p {}

/-- Overwriting the label object at an address: `*p = l`. -/
def labelMap.store (m : labelMap) (p : Nat) (l : label) : labelMap :=
  { m with pool := m.pool.set p l }

/-- The method `labelMap.Add`. Its argument is always the fresh object returned by
`labelFromAPI`; the object is placed at the next free address of the pool. -/
def labelMap.Add (lower : String → String) (m : labelMap) (lbl : label) : labelMap :=
  let p := m.pool.length
  { pool := m.pool ++ [lbl]
    byName := mapSet m.byName (lower lbl.Name) p
    byID := mapSet m.byID lbl.Id p }

/-- The method `labelMap.GetByName`. -/
def labelMap.GetByName (lower : String → String) (m : labelMap) (name : String) : Option Nat :=
  mapGet m.byName (lower name)

/-- The method `labelMap.GetByID`. -/
def labelMap.GetByID (m : labelMap) (id : String) : Option Nat :=
  mapGet m.byID id

/-- `strings.TrimPrefix`. -/
def TrimPrefix (s pre : String) : String :=
  if pre.data.isPrefixOf s.data then String.mk (s.data.drop pre.data.length) else s

/-- The function `labelFromAPI`. -/
def labelFromAPI (lower : String → String) (lbl : gmailLabel) : label :=
  let l : label := {}
  let l := { l with Name := lbl.Name }
  let l := { l with Id := lbl.Id }
  let l :=
    match lbl.Color with
    | some c => { l with BackgroundColor := c.BackgroundColor, TextColor := c.TextColor }
    | none => l
  let l := { l with LabelListVisibility := TrimPrefix (lower lbl.LabelListVisibility) "label" }
  let l := { l with MessageListVisibility := lower lbl.MessageListVisibility }
  let l := { l with Type_ := lbl.Type_ }
  l

/-- The state the program threads through: the directory, the remote calls made so
far (oldest first) and the files written so far. -/
structure World where
  labels : labelMap := {}
  trace : List Call := []
  files : List (String × Encoded) := []
deriving DecidableEq, Repr

/-- The method `labelMap.createLabelIfDoesNotExist`. -/
def createLabelIfDoesNotExist (lower : String → String) (api : Remote) (name : String)
    (w : World) : Except Err String × World :=
  match w.labels.GetByName lower name with
  | some l => (.ok (w.labels.deref l).Id, w)
  | none =>
    let req : gmailLabel := { Name := name }
    let w1 : World := { w with trace := w.trace ++ [Call.labelsCreate req] }
    match api.labelsCreate w.trace req with
    | .error msg => (.error (Err.creatingLabel name msg), w1)
    | .ok lbl => (.ok lbl.Id, { w1 with labels := w1.labels.Add lower (labelFromAPI lower lbl) })

/-- The request `updateLabel` that the method `label.UpdateLabel` builds. -/
def updateLabelRequest (l : label) : gmailLabel :=
  let updateLabel : gmailLabel :=
    { Id := l.Id
      MessageListVisibility := l.MessageListVisibility
      Name := l.Name
      Type_ := l.Type_
      NullFields := [] }
  let updateLabel :=
    if l.BackgroundColor ≠ "" ∨ l.TextColor ≠ "" then
      { updateLabel with
        Color := some { BackgroundColor := l.BackgroundColor, TextColor := l.TextColor } }
    else
      { updateLabel with NullFields := updateLabel.NullFields ++ ["Color"] }
  if l.LabelListVisibility = "hide" then
    { updateLabel with LabelListVisibility := "labelHide" }
  else if l.LabelListVisibility = "show" then
    { updateLabel with LabelListVisibility := "labelShow" }
  else if l.LabelListVisibility = "showifunread" then
    { updateLabel with LabelListVisibility := "labelShowIfUnread" }
  else updateLabel

/-- The method `label.UpdateLabel`: one Patch call for the label's id. -/
def UpdateLabel (api : Remote) (l : label) (w : World) : Except Err Unit × World :=
  let updateLabel := updateLabelRequest l
  let w1 : World := { w with trace := w.trace ++ [Call.labelsPatch l.Id updateLabel] }
  match api.labelsPatch w.trace l.Id updateLabel with
  | .error msg => (.error (Err.updatingLabel l.Name msg), w1)
  | .ok _ => (.ok (), w1)

/-- The loop of `updateLabels`, with the counter `updated`. The local labels are the
records decoded from the labels file: objects of their own that the loop only reads. -/
def updateLabelsLoop (api : Remote) :
    List label → World → Nat → Except Err Unit × World × Nat
  | [], w, updated => (.ok (), w, updated)
  | l :: rest, w, updated =>
    match w.labels.GetByID l.Id with
    | none => updateLabelsLoop api rest w updated
    | some rl =>
      if (w.labels.deref rl).Equals l = false then
        let w1 : World := { w with labels := w.labels.store rl l }
        match UpdateLabel api (w1.labels.deref rl) w1 with
        | (.error e, w2) => (.error e, w2, updated)
        | (.ok _, w2) => updateLabelsLoop api rest w2 (updated + 1)
      else updateLabelsLoop api rest w updated

/-- The function `updateLabels`. -/
def updateLabels (api : Remote) (localLabels : List label) (w : World) :
    Except Err Unit × World :=
  let r := updateLabelsLoop api localLabels w 0
  (r.1, r.2.1)

/-! ## Translating filters -/

/-- The method `filter.toGmailFilters`. -/
def toGmailFilters (lower : String → String) (api : Remote) (f : filter) (w : World) :
    Except Err (List gmailFilter) × World :=
  if f.Criteria.isValid = false then (.error (Err.criteriaInvalid f.Criteria), w)
  else if f.Action.isValid = false then (.error (Err.actionInvalid f.Action), w)
  else
    let action : gmailFilterAction := { AddLabelIds := [], RemoveLabelIds := [] }
    let labelStep : Except Err gmailFilterAction × World :=
      if f.Action.Label.length > 0 then
        match createLabelIfDoesNotExist lower api f.Action.Label w with
        | (.error e, w1) => (.error e, w1)
        | (.ok labelID, w1) =>
          (.ok { action with AddLabelIds := action.AddLabelIds ++ [labelID] }, w1)
      else (.ok action, w)
    match labelStep with
    | (.error e, w1) => (.error e, w1)
    | (.ok action, w1) =>
      let action := { action with RemoveLabelIds := [] }
      let action :=
        if f.Action.Archive then
          { action with RemoveLabelIds := action.RemoveLabelIds ++ ["INBOX"] }
        else action
      let action :=
        if f.Action.MarkRead then
          { action with RemoveLabelIds := action.RemoveLabelIds ++ ["UNREAD"] }
        else action
      let action :=
        if f.Action.Delete then
          { action with AddLabelIds := action.AddLabelIds ++ ["TRASH"] }
        else action
      let action :=
        if f.Action.Forward ≠ "" then { action with Forward := f.Action.Forward }
        else action
      let criteria : gmailFilterCriteria :=
        { ExcludeChats := f.Criteria.ExcludeChats
          From := f.Criteria.From
          HasAttachment := f.Criteria.HasAttachment
          NegatedQuery := f.Criteria.NegatedQuery
          Query := f.Criteria.Query
          Size := f.Criteria.Size
          SizeComparison := f.Criteria.SizeComparison
          Subject := f.Criteria.Subject
          To := f.Criteria.To }
      let filter : gmailFilter := { Action := some action, Criteria := some criteria }
      let filters := [filter]
      (.ok filters, w1)

/-- The loop of `convertToGmailFilters`, with the accumulator `gmailFilters`. -/
def convertLoop (lower : String → String) (api : Remote) :
    List filter → List gmailFilter → World → Except Err (List gmailFilter) × World
  | [], gmailFilters, w => (.ok gmailFilters, w)
  | f :: rest, gmailFilters, w =>
    match toGmailFilters lower api f w with
    | (.error e, w1) => (.error e, w1)
    | (.ok fs, w1) => convertLoop lower api rest (gmailFilters ++ fs) w1

/-- The function `convertToGmailFilters`. -/
def convertToGmailFilters (lower : String → String) (api : Remote) (filters : List filter)
    (w : World) : Except Err (List gmailFilter) × World :=
  convertLoop lower api filters [] w

/-- The function `addFilters`. -/
def addFilters (api : Remote) : List gmailFilter → World → Except Err Unit × World
  | [], w => (.ok (), w)
  | fltr :: rest, w =>
    let w1 : World := { w with trace := w.trace ++ [Call.filtersCreate fltr] }
    match api.filtersCreate w.trace fltr with
    | .error msg => (.error (Err.creatingFilter fltr msg), w1)
    | .ok _ => addFilters api rest w1

/-- The function `decodeFiltersFile`: the decoded records are returned unless one of
them is invalid; the first invalid one is reported. -/
def decodeFiltersFile (fsys : Files) (file : String) : Except Err (List filter) :=
  match fsys.filters file with
  | .error e => .error e
  | .ok ff =>
    match ff.find? (fun f => !f.IsValid) with
    | some f => .error (Err.filterInvalid f)
    | none => .ok ff

/-- The loop of `deleteExistingFilters`. -/
def deleteLoop (api : Remote) : List gmailFilter → World → Except Err Unit × World
  | [], w => (.ok (), w)
  | f :: rest, w =>
    let w1 : World := { w with trace := w.trace ++ [Call.filtersDelete f.Id] }
    match api.filtersDelete w.trace f.Id with
    | .error msg => (.error (Err.deletingFilter f.Id msg), w1)
    | .ok _ => deleteLoop api rest w1

/-- The function `deleteExistingFilters`. -/
def deleteExistingFilters (api : Remote) (w : World) : Except Err Unit × World :=
  let w1 : World := { w with trace := w.trace ++ [Call.filtersList] }
  match api.filtersList w.trace with
  | .error msg => (.error (Err.listingFilters msg), w1)
  | .ok l => deleteLoop api l w1

/-- The body of the loop of `getExistingFilters`: the local filter rebuilt from one
remote filter. Reading through a nil `Criteria` or `Action` stops the program. -/
def importFilter (labels : labelMap) (gmailFilter : gmailFilter) : Except Err filter :=
  match gmailFilter.Criteria with
  | none => .error Err.nilPointer
  | some c =>
    let f : filter := {}
    let f := { f with Criteria :=
      { ExcludeChats := c.ExcludeChats
        From := c.From
        HasAttachment := c.HasAttachment
        NegatedQuery := c.NegatedQuery
        Query := c.Query
        Size := c.Size
        SizeComparison := c.SizeComparison
        Subject := c.Subject
        To := c.To } }
    match gmailFilter.Action with
    | none => .error Err.nilPointer
    | some a =>
      if a.AddLabelIds.length > 1 then .error (Err.multipleAddLabelIds a.AddLabelIds)
      else
        let added : Except Err filter :=
          match a.AddLabelIds with
          | [] => .ok f
          | labelID :: _ =>
            if labelID = "TRASH" then .ok { f with Action := { f.Action with Delete := true } }
            else
              match labels.GetByID labelID with
              | none => .error (Err.unknownLabelID labelID)
              | some l =>
                .ok { f with Action := { f.Action with Label := (labels.deref l).Name } }
        match added with
        | .error e => .error e
        | .ok f =>
          let f := a.RemoveLabelIds.foldl (fun (f : filter) labelID =>
            if labelID = "UNREAD" then { f with Action := { f.Action with MarkRead := true } }
            else if labelID = "INBOX" then { f with Action := { f.Action with Archive := true } }
            else f) f
          if f.IsValid = false then .error (Err.importedFilterInvalid f) else .ok f

/-- The loop of `getExistingFilters`, with the accumulator `filters`. -/
def importLoop (labels : labelMap) : List gmailFilter → List filter → Except Err (List filter)
  | [], filters => .ok filters
  | gmailFilter :: rest, filters =>
    match importFilter labels gmailFilter with
    | .error e => .error e
    | .ok f => importLoop labels rest (filters ++ [f])

/-- The function `getExistingFilters`. -/
def getExistingFilters (api : Remote) (w : World) : Except Err (List filter) × World :=
  let w1 : World := { w with trace := w.trace ++ [Call.filtersList] }
  match api.filtersList w.trace with
  | .error msg => (.error (Err.remote msg), w1)
  | .ok gmailFilters => (importLoop w1.labels gmailFilters [], w1)

/-! ## Ordering and export -/

/-- `strings.Compare`: -1, 0 or 1. Lean compares strings character by character by
code point, which orders UTF-8 strings as comparing their bytes does. -/
def stringsCompare (a b : String) : Int :=
  if a = b then 0 else if a.data < b.data then -1 else 1

/-- The method `filterCriteria.Compare`. -/
def filterCriteria.Compare (c o : filterCriteria) : Int :=
  if stringsCompare c.To o.To ≠ 0 then stringsCompare c.To o.To
  else if stringsCompare c.From o.From ≠ 0 then stringsCompare c.From o.From
  else if stringsCompare c.Subject o.Subject ≠ 0 then stringsCompare c.Subject o.Subject
  else if stringsCompare c.Query o.Query ≠ 0 then stringsCompare c.Query o.Query
  else if stringsCompare c.NegatedQuery o.NegatedQuery ≠ 0 then
    stringsCompare c.NegatedQuery o.NegatedQuery
  else 0

/-- The method `filter.Compare`. -/
def filter.Compare (f o : filter) : Int :=
  f.Criteria.Compare o.Criteria

/-- The method `label.Compare`. -/
def label.Compare (l o : label) : Int :=
  stringsCompare l.Name o.Name

/-- `sort.SliceStable` with the given `less`: a stable sort, here by insertion. -/
def SliceStable {α : Type} (less : α → α → Bool) (xs : List α) : List α :=
  xs.insertionSort (fun a b => less b a = false)

/-- The function `writeFiltersToFile`. -/
def writeFiltersToFile (fsys : Files) (filters : List filter) (file : String) (w : World) :
    Except Err Unit × World :=
  match fsys.create file with
  | .error msg => (.error (Err.exportingFile msg), w)
  | .ok _ =>
    let ff := SliceStable (fun a b => decide (filter.Compare a b < 0)) filters
    match fsys.encode file with
    | .error msg => (.error (Err.exportingFile msg), w)
    | .ok _ => (.ok (), { w with files := w.files ++ [(file, Encoded.filterfile ff)] })

/-- The function `writeLabelsToFile`. The labels are collected by ranging over
`byName`, in the order of its bindings, and then sorted. -/
def writeLabelsToFile (fsys : Files) (file : String) (w : World) : Except Err Unit × World :=
  match fsys.create file with
  | .error msg => (.error (Err.exportingFile msg), w)
  | .ok _ =>
    let lf := w.labels.byName.map (fun e => w.labels.deref e.2)
    let lf := SliceStable (fun a b => decide (label.Compare a b < 0)) lf
    match fsys.encode file with
    | .error msg => (.error (Err.exportingFile msg), w)
    | .ok _ => (.ok (), { w with files := w.files ++ [(file, Encoded.labelFile lf)] })

/-- The function `decodeLabelsFile`. -/
def decodeLabelsFile (fsys : Files) (file : String) : Except Err (List label) :=
  match fsys.labels file with
  | .error e => .error e
  | .ok lf =>
    match lf.find? (fun l => !l.IsValid) with
    | some l => .error (Err.labelInvalid l.Name)
    | none => .ok lf

/-- The function `getLabelMap`. -/
def getLabelMap (lower : String → String) (api : Remote) (w : World) :
    Except Err Unit × World :=
  let w1 : World := { w with trace := w.trace ++ [Call.labelsList] }
  match api.labelsList w.trace with
  | .error msg => (.error (Err.listingLabels msg), w1)
  | .ok labelList =>
    let labels := labelList.foldl (fun m lbl => labelMap.Add lower m (labelFromAPI lower lbl)) {}
    (.ok (), { w1 with labels := labels })

/-- The function `exportExisting`. -/
def exportExisting (api : Remote) (fsys : Files) (filtersFile labelsFile : String)
    (w : World) : Except Err Unit × World :=
  match getExistingFilters api w with
  | (.error e, w1) => (.error (Err.downloadingFilters e), w1)
  | (.ok filters, w1) =>
    match writeFiltersToFile fsys filters filtersFile w1 with
    | (.error e, w2) => (.error e, w2)
    | (.ok _, w2) => writeLabelsToFile fsys labelsFile w2

/-! ## The action of `main` -/

/-- The function `p.Action` of `main`, started with no directory and no call made.
`exportFlag` is the flag `export`. The goroutine that waits for a termination signal
is left out. -/
def mainAction (lower : String → String) (api : Remote) (fsys : Files)
    (filtersFile labelsFile : String) (exportFlag : Bool) : Except Err Unit × World :=
  let w : World := {}
  if filtersFile = "" then (.error Err.mustSetFiltersFile, w)
  else if labelsFile = "" then (.error Err.mustSetLabelsFile, w)
  else
    match getLabelMap lower api w with
    | (.error e, w) => (.error e, w)
    | (.ok _, w) =>
      if exportFlag then exportExisting api fsys filtersFile labelsFile w
      else
        match decodeFiltersFile fsys filtersFile with
        | .error e => (.error e, w)
        | .ok filters =>
          match decodeLabelsFile fsys labelsFile with
          | .error e => (.error e, w)
          | .ok localLabels =>
            match convertToGmailFilters lower api filters w with
            | (.error e, w) => (.error e, w)
            | (.ok gmailFilters, w) =>
              match deleteExistingFilters api w with
              | (.error e, w) => (.error e, w)
              | (.ok _, w) =>
                match addFilters api gmailFilters w with
                | (.error e, w) => (.error e, w)
                | (.ok _, w) =>
                  match updateLabels api localLabels w with
                  | (.error e, w) => (.error e, w)
                  | (.ok _, w) => writeLabelsToFile fsys labelsFile w

/-! ## Well-formed directories and sample values -/

/-- The shape every directory of the program has: the addresses held by `byID` are
addresses of the pool, and no two ids hold the same address (`Add` indexes a fresh
object each time, and `updateLabels` writes through an address without touching the
indices). -/
def labelMap.wellFormed (m : labelMap) : Bool :=
  m.byID.all (fun e => decide (e.2 < m.pool.length)) && decide ((m.byID.map Prod.snd).Nodup)

/-- The number of label-update calls in a trace. -/
def patchCount (t : List Call) : Nat :=
  t.countP (fun c => match c with
    | Call.labelsPatch _ _ => true
    | _ => false)

/-- Lower-casing of the letters A to Z, the part of `strings.ToLower` that the sample
values below need. -/
def asciiLower (s : String) : String :=
  String.mk (s.data.map Char.toLower)

/-- A remote side on which every call succeeds; a created label gets the requested
name, an id derived from it and the visibilities the remote gives a new label. -/
def sampleRemote : Remote where
  labelsList := fun _ => .ok []
  labelsCreate := fun _ req =>
    .ok { Id := "Label_" ++ req.Name, Name := req.Name, LabelListVisibility := "labelShow",
          MessageListVisibility := "show", Type_ := "user" }
  labelsPatch := fun _ _ _ => .ok ()
  filtersList := fun _ => .ok []
  filtersCreate := fun _ _ => .ok ()
  filtersDelete := fun _ _ => .ok ()

/-- A valid filter that labels and deletes. -/
def sampleFilter : filter :=
  { Criteria := { From := "a@b.c" }, Action := { Label := "Work", Delete := true } }

/-- An invalid filter: its criteria have no text-match field. -/
def sampleInvalidFilter : filter :=
  { Criteria := { HasAttachment := true }, Action := { Label := "Work" } }

/-- A world whose directory holds the label "work" under the id "Label_1". -/
def sampleWorld : World :=
  { labels := labelMap.Add asciiLower {} { Id := "Label_1", Name := "work", Type_ := "user" } }

/-- The remote filter that `toGmailFilters` builds for `f` once its label, if any, is
resolved: `ids` is the list of resolved label ids (empty or one id). -/
def translated (f : filter) (ids : List String) : gmailFilter :=
  { Action := some
      { AddLabelIds := ids ++ (if f.Action.Delete then ["TRASH"] else [])
        Forward := f.Action.Forward
        RemoveLabelIds := (if f.Action.Archive then ["INBOX"] else []) ++
          (if f.Action.MarkRead then ["UNREAD"] else []) }
    Criteria := some
      { ExcludeChats := f.Criteria.ExcludeChats
        From := f.Criteria.From
        HasAttachment := f.Criteria.HasAttachment
        NegatedQuery := f.Criteria.NegatedQuery
        Query := f.Criteria.Query
        Size := f.Criteria.Size
        SizeComparison := f.Criteria.SizeComparison
        Subject := f.Criteria.Subject
        To := f.Criteria.To }
    Id := "" }

/-- Local files whose filters file holds a valid, an invalid and a valid filter, and
whose labels file is empty. -/
def sampleFiles : Files where
  filters := fun _ => .ok [sampleFilter, sampleInvalidFilter, sampleFilter]
  labels := fun _ => .ok []
  create := fun _ => .ok ()
  encode := fun _ => .ok ()

/-- Local files whose filters file holds the sample filter only. -/
def sampleFilesValid : Files where
  filters := fun _ => .ok [sampleFilter]
  labels := fun _ => .ok []
  create := fun _ => .ok ()
  encode := fun _ => .ok ()

/-- The label the sample world holds, as a local record. -/
def sampleLabel : label :=
  { Id := "Label_1", Name := "work", Type_ := "user" }

/-- A second local record with the same id and another name. -/
def sampleLabelRenamed : label :=
  { Id := "Label_1", Name := "Work2", Type_ := "user" }

/-- A world whose directory holds the label "work" with both visibilities "show", as
the remote reports a label nobody changed. -/
def sampleWorldShown : World :=
  { labels := labelMap.Add asciiLower {}
      { Id := "Label_1", Name := "work", LabelListVisibility := "show",
        MessageListVisibility := "show", Type_ := "user" } }

/-! ## Ordering, as the ordering rule words it -/

/-- The five fields that order filters, in the order of comparison. -/
def filter.sortKey (f : filter) : List String :=
  [f.Criteria.To, f.Criteria.From, f.Criteria.Subject, f.Criteria.Query, f.Criteria.NegatedQuery]

/-- Lexicographic comparison of two tuples of strings: the comparison of the first
pair of fields that differ, 0 when no pair differs. -/
def lexCompare : List String → List String → Int
  | a :: as, b :: bs => if a = b then lexCompare as bs else stringsCompare a b
  | _, _ => 0

/-- A filter on mail to "z". -/
def sampleFilterZ : filter :=
  { Criteria := { To := "z" }, Action := { Archive := true } }

/-- A filter on mail to "a". -/
def sampleFilterA1 : filter :=
  { Criteria := { To := "a" }, Action := { Label := "first" } }

/-- Another filter on mail to "a", with another action. -/
def sampleFilterA2 : filter :=
  { Criteria := { To := "a" }, Action := { Label := "second" } }

/-- The local filter that `getExistingFilters` rebuilds from remote criteria `c`, a
resolved label name, the delete flag and the remote `RemoveLabelIds`, before its
validity is checked. -/
def imported (c : gmailFilterCriteria) (labelName : String) (delete : Bool)
    (removeLabelIds : List String) : filter :=
  { Criteria :=
      { ExcludeChats := c.ExcludeChats
        From := c.From
        HasAttachment := c.HasAttachment
        NegatedQuery := c.NegatedQuery
        Query := c.Query
        Size := c.Size
        SizeComparison := c.SizeComparison
        Subject := c.Subject
        To := c.To }
    Action :=
      { Label := labelName
        Forward := ""
        Archive := decide ("INBOX" ∈ removeLabelIds)
        MarkRead := decide ("UNREAD" ∈ removeLabelIds)
        Delete := delete } }

/-- A remote filter that adds the label of the sample world and removes the inbox
marker. -/
def sampleRemoteFilter : gmailFilter :=
  { Action := some { AddLabelIds := ["Label_1"], RemoveLabelIds := ["INBOX"] }
    Criteria := some { From := "a@b.c" }
    Id := "f1" }

/-- A remote filter that adds a label and the trash marker. -/
def sampleRemoteFilterLabelTrash : gmailFilter :=
  { Action := some { AddLabelIds := ["Label_1", "TRASH"] }
    Criteria := some { From := "a@b.c" }
    Id := "f2" }

/-- A remote side that lists one filter, the sample remote filter. -/
def sampleRemoteListing : Remote :=
  { sampleRemote with filtersList := fun _ => .ok [sampleRemoteFilter] }

/-- A valid filter that labels with "work", the name the sample world holds, and
deletes. -/
def sampleFilterLabelDelete : filter :=
  { Criteria := { From := "a@b.c" }, Action := { Label := "work", Delete := true } }

/-- A valid filter that labels with "work" and archives. -/
def sampleFilterLabelArchive : filter :=
  { Criteria := { From := "a@b.c" }, Action := { Label := "work", Archive := true } }

/-- A remote label whose label-list visibility is "labelShowIfUnread". -/
def sampleRemoteLabel : gmailLabel :=
  { Id := "Label_1", Name := "work", LabelListVisibility := "labelShowIfUnread" }

/-- The two indices agree: every binding of `byID` holds an object of the pool with
that id, every binding of `byName` holds an object of the pool whose lower-cased name
is the key, and an object of the pool is found by `GetByID` under its id exactly when
it is found by `GetByName` under its name. -/
def labelMap.indexed (lower : String → String) (m : labelMap) : Prop :=
  (∀ id p, m.GetByID id = some p → p < m.pool.length ∧ (m.deref p).Id = id) ∧
  (∀ key p, mapGet m.byName key = some p →
    p < m.pool.length ∧ lower (m.deref p).Name = key) ∧
  (∀ p, p < m.pool.length →
    (m.GetByID (m.deref p).Id = some p ↔ m.GetByName lower (m.deref p).Name = some p))

/-- A world whose directory was built from two remote labels with different ids
whose names differ only in case. -/
def sampleWorldClash : World :=
  { labels := labelMap.Add asciiLower
      (labelMap.Add asciiLower {} { Id := "Label_1", Name := "work", Type_ := "user" })
      { Id := "Label_2", Name := "Work", Type_ := "user" } }

/-- A world whose directory was built from the remote labels "alpha" and "zeta", so
that ranging over `byName` meets "zeta" first. -/
def sampleWorldTwo : World :=
  { labels := labelMap.Add asciiLower
      (labelMap.Add asciiLower {} { Id := "Label_1", Name := "alpha", Type_ := "user" })
      { Id := "Label_2", Name := "zeta", Type_ := "user" } }

/-- A remote side that creates every label under the name "Work", as a remote that
trims the requested name "Work " does. -/
def sampleRemoteTrimming : Remote :=
  { sampleRemote with
    labelsCreate := fun _ _ => .ok { Id := "Label_9", Name := "Work", Type_ := "user" } }

/-- A valid filter whose label name ends in a blank. -/
def sampleFilterSpace : filter :=
  { Criteria := { From := "a@b.c" }, Action := { Label := "Work " } }

/-- The shape of every directory the program builds from remote labels whose ids are
distinct and whose names are distinct up to case, as the data model has them: the
directory is well-formed, the keys of `byID` are distinct, and `byName` holds the
same objects as `byID`, each as often. (`Add` of a label with a new id and a new name
adds one object to both indices, and `updateLabels` touches neither index.) -/
def labelMap.aligned (m : labelMap) : Bool :=
  m.wellFormed && decide ((m.byID.map Prod.fst).Nodup) &&
    decide ((m.byName.map Prod.snd).Perm (m.byID.map Prod.snd))

/-! ## Theorems -/

/-- C1: a filter is valid exactly when one of Query, NegatedQuery, From, Subject, To
is non-empty and one of Label, Forward is non-empty or one of Archive, MarkRead,
Delete is true; overwriting ExcludeChats, HasAttachment, Size and SizeComparison
never changes the verdict, and criteria with only HasAttachment set are invalid
whatever the action. -/
theorem filter_IsValid_iff (f : filter) :
    (f.IsValid = true ↔
      (f.Criteria.Query ≠ "" ∨ f.Criteria.NegatedQuery ≠ "" ∨ f.Criteria.From ≠ "" ∨
        f.Criteria.Subject ≠ "" ∨ f.Criteria.To ≠ "") ∧
      (f.Action.Label ≠ "" ∨ f.Action.Forward ≠ "" ∨ f.Action.Archive = true ∨
        f.Action.MarkRead = true ∨ f.Action.Delete = true)) ∧
    (∀ (e h : Bool) (s : Int) (sc : String),
      filter.IsValid { f with Criteria := { f.Criteria with
        ExcludeChats := e, HasAttachment := h, Size := s, SizeComparison := sc } }
        = f.IsValid) ∧
    (∀ a : filterAction,
      filter.IsValid { Criteria := { HasAttachment := true }, Action := a } = false) := by
  refine ⟨?_, ?_, ?_⟩
  · obtain ⟨c, a⟩ := f
    cases hA : a.Archive <;> cases hM : a.MarkRead <;> cases hD : a.Delete <;>
      simp [filter.IsValid, filterCriteria.isValid, filterAction.isValid, hA, hM, hD]
  · intro e h s sc
    simp [filter.IsValid, filterCriteria.isValid]
  · intro a
    simp [filter.IsValid, filterCriteria.isValid]

/-- C2: a label is valid exactly when Id and Name are non-empty, LabelListVisibility
is one of "", "hide", "show", "showifunread", MessageListVisibility is one of "",
"hide", "show", Type is "user" or "system", and the two colours are both empty or
both non-empty. -/
theorem label_IsValid_iff (l : label) :
    l.IsValid = true ↔
      l.Id ≠ "" ∧ l.Name ≠ "" ∧
      (l.LabelListVisibility = "" ∨ l.LabelListVisibility = "hide" ∨
        l.LabelListVisibility = "show" ∨ l.LabelListVisibility = "showifunread") ∧
      (l.MessageListVisibility = "" ∨ l.MessageListVisibility = "hide" ∨
        l.MessageListVisibility = "show") ∧
      (l.Type_ = "user" ∨ l.Type_ = "system") ∧
      ((l.BackgroundColor = "" ∧ l.TextColor = "") ∨
        (l.BackgroundColor ≠ "" ∧ l.TextColor ≠ "")) := by
  unfold label.IsValid
  by_cases h1 : l.Id = "" <;> by_cases h2 : l.Name = "" <;>
    by_cases h3 : l.BackgroundColor = "" <;> by_cases h4 : l.TextColor = "" <;>
    simp [h1, h2, h3, h4]

/-! ### Helper lemmas -/

theorem length_pos_iff_ne_empty (s : String) : s.length > 0 ↔ s ≠ "" := by
  obtain ⟨d⟩ := s
  cases d with
  | nil => simp [String.length]
  | cons a t =>
    simp [String.length]
    intro h
    have := congrArg String.data h
    simp at this

theorem mapGet_mapSet_same (m : List (String × Nat)) (k : String) (v : Nat) :
    mapGet (mapSet m k v) k = some v := by
  simp [mapSet, mapGet]

theorem mapGet_filter_ne (m : List (String × Nat)) (k k' : String) (h : k' ≠ k) :
    mapGet (m.filter (fun e => decide (e.1 ≠ k))) k' = mapGet m k' := by
  induction m with
  | nil => rfl
  | cons e rest ih =>
    obtain ⟨a, b⟩ := e
    rw [List.filter_cons]
    by_cases hk : a = k
    · have hd : decide ((a, b).1 ≠ k) = false := by simp [hk]
      have hak : a ≠ k' := fun h' => h (h'.symm.trans hk)
      rw [hd, if_neg (by simp), ih]
      simp [mapGet, hak]
    · have hd : decide ((a, b).1 ≠ k) = true := by simp [hk]
      rw [hd, if_pos rfl]
      simp only [mapGet]
      rw [ih]

theorem mapGet_mapSet_other (m : List (String × Nat)) (k k' : String) (v : Nat) (h : k' ≠ k) :
    mapGet (mapSet m k v) k' = mapGet m k' := by
  have hk : k ≠ k' := fun h' => h h'.symm
  simp only [mapSet, mapGet, hk, if_false]
  exact mapGet_filter_ne m k k' h

theorem toGmailFilters_invalid (lower : String → String) (api : Remote) (f : filter) (w : World)
    (hv : f.IsValid = false) :
    ∃ e, toGmailFilters lower api f w = (.error e, w) := by
  simp only [filter.IsValid, Bool.and_eq_false_iff] at hv
  by_cases hc : f.Criteria.isValid = false
  · exact ⟨Err.criteriaInvalid f.Criteria, by simp [toGmailFilters, hc]⟩
  · have ha : f.Action.isValid = false := by
      rcases hv with h | h
      · exact absurd h hc
      · exact h
    exact ⟨Err.actionInvalid f.Action, by simp [toGmailFilters, hc, ha]⟩

theorem toGmailFilters_no_label (lower : String → String) (api : Remote) (f : filter) (w : World)
    (hv : f.IsValid = true) (hl : f.Action.Label = "") :
    toGmailFilters lower api f w = (.ok [translated f []], w) := by
  simp only [filter.IsValid, Bool.and_eq_true] at hv
  obtain ⟨hc, ha⟩ := hv
  obtain ⟨c, ⟨lab, fwd, ar, mr, del⟩⟩ := f
  simp only at hc ha hl ⊢
  by_cases hf : fwd = "" <;> cases ar <;> cases mr <;> cases del <;>
    simp_all [toGmailFilters, filterAction.isValid, translated]

theorem toGmailFilters_resolved (lower : String → String) (api : Remote) (f : filter)
    (w w1 : World) (i : String) (hv : f.IsValid = true) (hl : f.Action.Label ≠ "")
    (hcr : createLabelIfDoesNotExist lower api f.Action.Label w = (.ok i, w1)) :
    toGmailFilters lower api f w = (.ok [translated f [i]], w1) := by
  simp only [filter.IsValid, Bool.and_eq_true] at hv
  obtain ⟨hc, ha⟩ := hv
  obtain ⟨c, ⟨lab, fwd, ar, mr, del⟩⟩ := f
  simp only at hc ha hl hcr ⊢
  have hlen : lab.length > 0 := (length_pos_iff_ne_empty _).2 hl
  by_cases hf : fwd = "" <;> cases ar <;> cases mr <;> cases del <;>
    simp_all [toGmailFilters, filterAction.isValid, translated]

theorem toGmailFilters_unresolved (lower : String → String) (api : Remote) (f : filter)
    (w w1 : World) (e : Err) (hv : f.IsValid = true) (hl : f.Action.Label ≠ "")
    (hcr : createLabelIfDoesNotExist lower api f.Action.Label w = (.error e, w1)) :
    toGmailFilters lower api f w = (.error e, w1) := by
  simp only [filter.IsValid, Bool.and_eq_true] at hv
  obtain ⟨hc, ha⟩ := hv
  have hlen : f.Action.Label.length > 0 := (length_pos_iff_ne_empty _).2 hl
  simp [toGmailFilters, hc, ha, hlen, hcr]

theorem labelFromAPI_Name (lower : String → String) (lbl : gmailLabel) :
    (labelFromAPI lower lbl).Name = lbl.Name := by
  unfold labelFromAPI
  cases lbl.Color <;> rfl

theorem labelFromAPI_Id (lower : String → String) (lbl : gmailLabel) :
    (labelFromAPI lower lbl).Id = lbl.Id := by
  unfold labelFromAPI
  cases lbl.Color <;> rfl

theorem GetByName_Add (lower : String → String) (m : labelMap) (l : label) (n : String)
    (h : lower n = lower l.Name) :
    (m.Add lower l).GetByName lower n = some m.pool.length := by
  simp [labelMap.GetByName, labelMap.Add, h, mapGet_mapSet_same]

theorem GetByName_Add_other (lower : String → String) (m : labelMap) (l : label) (n : String)
    (h : lower n ≠ lower l.Name) :
    (m.Add lower l).GetByName lower n = m.GetByName lower n := by
  simp [labelMap.GetByName, labelMap.Add, mapGet_mapSet_other _ _ _ _ h]

theorem GetByID_Add (lower : String → String) (m : labelMap) (l : label) :
    (m.Add lower l).GetByID l.Id = some m.pool.length := by
  simp [labelMap.GetByID, labelMap.Add, mapGet_mapSet_same]

theorem GetByID_Add_other (lower : String → String) (m : labelMap) (l : label) (id : String)
    (h : id ≠ l.Id) :
    (m.Add lower l).GetByID id = m.GetByID id := by
  simp [labelMap.GetByID, labelMap.Add, mapGet_mapSet_other _ _ _ _ h]

theorem deref_Add_new (lower : String → String) (m : labelMap) (l : label) :
    (m.Add lower l).deref m.pool.length = l := by
  simp [labelMap.deref, labelMap.Add, List.getD_eq_getElem?_getD]

theorem deref_Add_old (lower : String → String) (m : labelMap) (l : label) (p : Nat)
    (h : p < m.pool.length) :
    (m.Add lower l).deref p = m.deref p := by
  simp [labelMap.deref, labelMap.Add, List.getD_eq_getElem?_getD, List.getElem?_append_left h]

theorem createLabelIfDoesNotExist_trace (lower : String → String) (api : Remote)
    (name : String) (w : World) :
    (createLabelIfDoesNotExist lower api name w).2.files = w.files ∧
    ((createLabelIfDoesNotExist lower api name w).2.trace = w.trace ∨
      (createLabelIfDoesNotExist lower api name w).2.trace =
        w.trace ++ [Call.labelsCreate { Name := name }]) := by
  cases h1 : w.labels.GetByName lower name with
  | some p => simp [createLabelIfDoesNotExist, h1]
  | none =>
    cases h2 : api.labelsCreate w.trace { Name := name } with
    | error msg => simp [createLabelIfDoesNotExist, h1, h2]
    | ok lbl => simp [createLabelIfDoesNotExist, h1, h2]

theorem toGmailFilters_trace (lower : String → String) (api : Remote) (f : filter) (w : World) :
    (toGmailFilters lower api f w).2.files = w.files ∧
    ((toGmailFilters lower api f w).2.trace = w.trace ∨
      (f.IsValid = true ∧ f.Action.Label ≠ "" ∧
        (toGmailFilters lower api f w).2.trace =
          w.trace ++ [Call.labelsCreate { Name := f.Action.Label }])) := by
  cases hv : f.IsValid with
  | false =>
    obtain ⟨e, he⟩ := toGmailFilters_invalid lower api f w hv
    simp [he]
  | true =>
    by_cases hl : f.Action.Label = ""
    · simp [toGmailFilters_no_label lower api f w hv hl]
    · have ht := createLabelIfDoesNotExist_trace lower api f.Action.Label w
      rcases hcr : createLabelIfDoesNotExist lower api f.Action.Label w with ⟨r, w1⟩
      rw [hcr] at ht
      cases r with
      | error e =>
        rw [toGmailFilters_unresolved lower api f w w1 e hv hl hcr]
        simpa [hl] using ht
      | ok i =>
        rw [toGmailFilters_resolved lower api f w w1 i hv hl hcr]
        simpa [hl] using ht

theorem convertLoop_trace (lower : String → String) (api : Remote) (fs : List filter) :
    ∀ (acc : List gmailFilter) (w : World),
      (convertLoop lower api fs acc w).2.files = w.files ∧
      ∃ calls, (convertLoop lower api fs acc w).2.trace = w.trace ++ calls ∧
        calls.length ≤ fs.length ∧
        ∀ c ∈ calls, ∃ g ∈ fs, g.IsValid = true ∧ g.Action.Label ≠ "" ∧
          c = Call.labelsCreate { Name := g.Action.Label } := by
  induction fs with
  | nil => intro acc w; exact ⟨rfl, [], by simp [convertLoop], by simp, by simp⟩
  | cons f rest ih =>
    intro acc w
    have ht := toGmailFilters_trace lower api f w
    rcases hto : toGmailFilters lower api f w with ⟨r, w1⟩
    rw [hto] at ht
    obtain ⟨hfiles, htr⟩ := ht
    simp only at hfiles htr
    have hcalls : ∃ calls1, w1.trace = w.trace ++ calls1 ∧ calls1.length ≤ 1 ∧
        ∀ c ∈ calls1, f.IsValid = true ∧ f.Action.Label ≠ "" ∧
          c = Call.labelsCreate { Name := f.Action.Label } := by
      rcases htr with h | ⟨h1, h2, h3⟩
      · exact ⟨[], by simp [h], by simp, by simp⟩
      · exact ⟨[Call.labelsCreate { Name := f.Action.Label }], h3, by simp, by simp [h1, h2]⟩
    obtain ⟨calls1, hc1, hlen1, hall1⟩ := hcalls
    cases r with
    | error e =>
      refine ⟨by simp [convertLoop, hto, hfiles], calls1, by simp [convertLoop, hto, hc1],
        by simp; omega, ?_⟩
      intro c hc
      exact ⟨f, by simp, hall1 c hc⟩
    | ok gfs =>
      obtain ⟨hf2, calls2, hc2, hlen2, hall2⟩ := ih (acc ++ gfs) w1
      refine ⟨by simp [convertLoop, hto, hf2, hfiles], calls1 ++ calls2,
        by simp [convertLoop, hto, hc2, hc1], by simp; omega, ?_⟩
      intro c hc
      rcases List.mem_append.1 hc with h | h
      · exact ⟨f, by simp, hall1 c h⟩
      · obtain ⟨g, hg, hrest⟩ := hall2 c h
        exact ⟨g, List.mem_cons_of_mem _ hg, hrest⟩

theorem convertLoop_invalid (lower : String → String) (api : Remote) (fs : List filter) :
    ∀ (acc : List gmailFilter) (w : World), (∃ f ∈ fs, f.IsValid = false) →
      (∃ e, (convertLoop lower api fs acc w).1 = .error e) ∧
      ∃ calls, (convertLoop lower api fs acc w).2.trace = w.trace ++ calls ∧
        calls.length ≤ (fs.takeWhile (fun f => f.IsValid)).length ∧
        ∀ c ∈ calls, ∃ g ∈ fs.takeWhile (fun f => f.IsValid), g.Action.Label ≠ "" ∧
          c = Call.labelsCreate { Name := g.Action.Label } := by
  induction fs with
  | nil => intro acc w h; simp at h
  | cons f rest ih =>
    intro acc w hinv
    cases hv : f.IsValid with
    | false =>
      obtain ⟨e, he⟩ := toGmailFilters_invalid lower api f w hv
      exact ⟨⟨e, by simp [convertLoop, he]⟩, [], by simp [convertLoop, he], by simp, by simp⟩
    | true =>
      have hrest : ∃ g ∈ rest, g.IsValid = false := by
        obtain ⟨g, hg, hgv⟩ := hinv
        rcases List.mem_cons.1 hg with h | h
        · subst h; rw [hv] at hgv; cases hgv
        · exact ⟨g, h, hgv⟩
      have ht := toGmailFilters_trace lower api f w
      rcases hto : toGmailFilters lower api f w with ⟨r, w1⟩
      rw [hto] at ht
      obtain ⟨-, htr⟩ := ht
      simp only at htr
      have hcalls : ∃ calls1, w1.trace = w.trace ++ calls1 ∧ calls1.length ≤ 1 ∧
          ∀ c ∈ calls1, f.Action.Label ≠ "" ∧
            c = Call.labelsCreate { Name := f.Action.Label } := by
        rcases htr with h | ⟨-, h2, h3⟩
        · exact ⟨[], by simp [h], by simp, by simp⟩
        · exact ⟨[Call.labelsCreate { Name := f.Action.Label }], h3, by simp, by simp [h2]⟩
      obtain ⟨calls1, hc1, hlen1, hall1⟩ := hcalls
      cases r with
      | error e =>
        refine ⟨⟨e, by simp [convertLoop, hto]⟩, calls1, by simp [convertLoop, hto, hc1],
          by simp [List.takeWhile, hv]; omega, ?_⟩
        intro c hc
        exact ⟨f, by simp [List.takeWhile, hv], hall1 c hc⟩
      | ok gfs =>
        obtain ⟨⟨e, he⟩, calls2, hc2, hlen2, hall2⟩ := ih (acc ++ gfs) w1 hrest
        refine ⟨⟨e, by simp [convertLoop, hto, he]⟩, calls1 ++ calls2,
          by simp [convertLoop, hto, hc2, hc1], by simp [List.takeWhile, hv]; omega, ?_⟩
        intro c hc
        rcases List.mem_append.1 hc with h | h
        · exact ⟨f, by simp [List.takeWhile, hv], hall1 c h⟩
        · obtain ⟨g, hg, hrest'⟩ := hall2 c h
          exact ⟨g, by simp [List.takeWhile, hv, hg], hrest'⟩

/-! ### Translating one filter -/

/-- C3: for a valid filter and a world in which resolving its label (when it has one)
succeeds with id i, toGmailFilters returns exactly one remote filter: AddLabelIds is
[i] when the label is set, followed by "TRASH" exactly when Delete; RemoveLabelIds is
"INBOX" exactly when Archive followed by "UNREAD" exactly when MarkRead; Forward is
the action's Forward; the nine criteria fields are those of the filter. -/
theorem toGmailFilters_valid (lower : String → String) (api : Remote) (f : filter) (w : World)
    (i : String) (hv : f.IsValid = true)
    (hres : f.Action.Label ≠ "" →
      (createLabelIfDoesNotExist lower api f.Action.Label w).1 = .ok i) :
    (toGmailFilters lower api f w).1 = .ok
      [{ Action := some
          { AddLabelIds := (if f.Action.Label ≠ "" then [i] else []) ++
              (if f.Action.Delete then ["TRASH"] else [])
            Forward := f.Action.Forward
            RemoveLabelIds := (if f.Action.Archive then ["INBOX"] else []) ++
              (if f.Action.MarkRead then ["UNREAD"] else []) }
         Criteria := some
          { ExcludeChats := f.Criteria.ExcludeChats
            From := f.Criteria.From
            HasAttachment := f.Criteria.HasAttachment
            NegatedQuery := f.Criteria.NegatedQuery
            Query := f.Criteria.Query
            Size := f.Criteria.Size
            SizeComparison := f.Criteria.SizeComparison
            Subject := f.Criteria.Subject
            To := f.Criteria.To }
         Id := "" }] := by
  simp only [filter.IsValid, Bool.and_eq_true] at hv
  obtain ⟨hc, ha⟩ := hv
  obtain ⟨c, ⟨lab, fwd, ar, mr, del⟩⟩ := f
  simp only at hres hc ha ⊢
  by_cases hl : lab = ""
  · have hlen : ¬ lab.length > 0 := by
      rw [length_pos_iff_ne_empty]; simpa using hl
    clear hres
    by_cases hf : fwd = "" <;> cases ar <;> cases mr <;> cases del <;>
      simp_all [toGmailFilters, filterAction.isValid]
  · have hlen : lab.length > 0 := (length_pos_iff_ne_empty _).2 hl
    have hr := hres hl
    rcases hcr : createLabelIfDoesNotExist lower api lab w with ⟨r, w1⟩
    rw [hcr] at hr
    simp only at hr
    subst hr
    clear hres
    by_cases hf : fwd = "" <;> cases ar <;> cases mr <;> cases del <;>
      simp_all [toGmailFilters, filterAction.isValid]

/-- An instance of C3: the sample filter against the sample world, where the label
"Work" resolves to "Label_1". -/
theorem toGmailFilters_valid_witness :
    sampleFilter.IsValid = true ∧
    (toGmailFilters asciiLower sampleRemote sampleFilter sampleWorld).1 = .ok
      [{ Action := some { AddLabelIds := ["Label_1", "TRASH"], Forward := "", RemoveLabelIds := [] }
         Criteria := some { From := "a@b.c" }
         Id := "" }] :=
  ⟨by decide,
   toGmailFilters_valid asciiLower sampleRemote sampleFilter sampleWorld "Label_1"
     (by decide) (fun _ => by decide)⟩

/-- C4, as the code has it: for a valid filter with a label name. If GetByName does
not find the name and the creation call (carrying only that name) succeeds with a
label of id i, then toGmailFilters issues exactly that one call, the returned filter's
AddLabelIds starts with i, and afterwards GetByID of i holds a new object, the created
label, which GetByName finds under every name whose lower-casing is that of the name
the remote returned; names with another lower-casing resolve as before. If GetByName
finds the name, nothing is called, the world is unchanged and the returned filter's
AddLabelIds starts with the id of the label found. -/
theorem toGmailFilters_label_resolution (lower : String → String) (api : Remote) (f : filter)
    (w : World) (hv : f.IsValid = true) (hl : f.Action.Label ≠ "") :
    (∀ resp : gmailLabel,
      w.labels.GetByName lower f.Action.Label = none →
      api.labelsCreate w.trace { Name := f.Action.Label } = .ok resp →
      (∃ gf a, (toGmailFilters lower api f w).1 = .ok [gf] ∧ gf.Action = some a ∧
        a.AddLabelIds = resp.Id :: (if f.Action.Delete then ["TRASH"] else [])) ∧
      (toGmailFilters lower api f w).2.trace =
        w.trace ++ [Call.labelsCreate { Name := f.Action.Label }] ∧
      (∃ p, (toGmailFilters lower api f w).2.labels.GetByID resp.Id = some p ∧
        (toGmailFilters lower api f w).2.labels.deref p = labelFromAPI lower resp ∧
        (∀ n : String, lower n = lower resp.Name →
          (toGmailFilters lower api f w).2.labels.GetByName lower n = some p) ∧
        (∀ n : String, lower n ≠ lower resp.Name →
          (toGmailFilters lower api f w).2.labels.GetByName lower n =
            w.labels.GetByName lower n))) ∧
    (∀ p : Nat,
      w.labels.GetByName lower f.Action.Label = some p →
      (toGmailFilters lower api f w).2 = w ∧
      (∃ gf a, (toGmailFilters lower api f w).1 = .ok [gf] ∧ gf.Action = some a ∧
        a.AddLabelIds = (w.labels.deref p).Id :: (if f.Action.Delete then ["TRASH"] else []))) := by
  constructor
  · intro resp hnone hcreate
    have hcr : createLabelIfDoesNotExist lower api f.Action.Label w =
        (.ok resp.Id,
          { w with
            trace := w.trace ++ [Call.labelsCreate { Name := f.Action.Label }]
            labels := w.labels.Add lower (labelFromAPI lower resp) }) := by
      simp [createLabelIfDoesNotExist, hnone, hcreate]
    rw [toGmailFilters_resolved lower api f w _ resp.Id hv hl hcr]
    refine ⟨⟨_, _, rfl, rfl, by simp⟩, rfl, w.labels.pool.length, ?_, ?_, ?_, ?_⟩
    · have := GetByID_Add lower w.labels (labelFromAPI lower resp)
      rw [labelFromAPI_Id] at this
      exact this
    · exact deref_Add_new lower _ _
    · intro n hn
      exact GetByName_Add lower _ _ _ (by rw [labelFromAPI_Name]; exact hn)
    · intro n hn
      exact GetByName_Add_other lower _ _ _ (by rw [labelFromAPI_Name]; exact hn)
  · intro p hsome
    have hcr : createLabelIfDoesNotExist lower api f.Action.Label w =
        (.ok (w.labels.deref p).Id, w) := by
      simp [createLabelIfDoesNotExist, hsome]
    rw [toGmailFilters_resolved lower api f w _ _ hv hl hcr]
    exact ⟨rfl, _, _, rfl, rfl, by simp⟩

/-- An instance of C4 as amended: the sample filter in the empty world (its label
"Work" is created and then found under "Work") and in the sample world (its label is
found as "work"). -/
theorem toGmailFilters_label_resolution_witness :
    ((∃ gf a, (toGmailFilters asciiLower sampleRemote sampleFilter {}).1 = .ok [gf] ∧
        gf.Action = some a ∧ a.AddLabelIds = "Label_Work" :: ["TRASH"]) ∧
      (toGmailFilters asciiLower sampleRemote sampleFilter {}).2.trace =
        [Call.labelsCreate { Name := "Work" }] ∧
      (∃ p, (toGmailFilters asciiLower sampleRemote sampleFilter {}).2.labels.GetByName
          asciiLower "Work" = some p ∧
        (toGmailFilters asciiLower sampleRemote sampleFilter {}).2.labels.GetByID
          "Label_Work" = some p ∧
        (toGmailFilters asciiLower sampleRemote sampleFilter {}).2.labels.deref p =
          { Id := "Label_Work", Name := "Work", LabelListVisibility := "show",
            MessageListVisibility := "show", Type_ := "user" })) ∧
    ((toGmailFilters asciiLower sampleRemote sampleFilter sampleWorld).2 = sampleWorld ∧
      (∃ gf a, (toGmailFilters asciiLower sampleRemote sampleFilter sampleWorld).1 = .ok [gf] ∧
        gf.Action = some a ∧ a.AddLabelIds = "Label_1" :: ["TRASH"])) :=
  have h := (toGmailFilters_label_resolution asciiLower sampleRemote sampleFilter {}
      (by decide) (by decide)).1
      { Id := "Label_Work", Name := "Work", LabelListVisibility := "labelShow",
        MessageListVisibility := "show", Type_ := "user" }
      (by decide) (by decide)
  ⟨⟨h.1, h.2.1,
     match h.2.2 with
     | ⟨p, h1, h2, h3, _⟩ => ⟨p, h3 "Work" (by decide), h1, h2⟩⟩,
   (toGmailFilters_label_resolution asciiLower sampleRemote sampleFilter sampleWorld
      (by decide) (by decide)).2 0 (by decide)⟩

/-- C4 as stated fails: the remote side creates the label under a trimmed name. The
filter names the label "Work " (absent from the directory), the creation call
succeeds with id "Label_9" and name "Work", the returned filter adds "Label_9", and
afterwards GetByName does not find "Work ": the directory holds the created label
under the name the remote returned. -/
theorem toGmailFilters_created_label_other_name :
    sampleFilterSpace.IsValid = true ∧
    ({} : World).labels.GetByName asciiLower sampleFilterSpace.Action.Label = none ∧
    sampleRemoteTrimming.labelsCreate [] { Name := "Work " } =
      .ok { Id := "Label_9", Name := "Work", Type_ := "user" } ∧
    (toGmailFilters asciiLower sampleRemoteTrimming sampleFilterSpace {}).1 =
      .ok [translated sampleFilterSpace ["Label_9"]] ∧
    (toGmailFilters asciiLower sampleRemoteTrimming sampleFilterSpace {}).2.labels.GetByID
      "Label_9" = some 0 ∧
    (toGmailFilters asciiLower sampleRemoteTrimming sampleFilterSpace {}).2.labels.GetByName
      asciiLower "Work " = none := by
  decide

/-! ### The order of the phases of a sync run -/

theorem getLabelMap_trace (lower : String → String) (api : Remote) (w : World) :
    (getLabelMap lower api w).2.trace = w.trace ++ [Call.labelsList] := by
  unfold getLabelMap
  cases api.labelsList w.trace <;> rfl

theorem decodeFiltersFile_invalid (fsys : Files) (file : String) (filters : List filter)
    (hdec : fsys.filters file = .ok filters) (hinv : ∃ f ∈ filters, f.IsValid = false) :
    ∃ e, decodeFiltersFile fsys file = .error e := by
  cases hfind : filters.find? (fun f => !f.IsValid) with
  | some f => exact ⟨Err.filterInvalid f, by simp [decodeFiltersFile, hdec, hfind]⟩
  | none =>
    obtain ⟨f, hf, hv⟩ := hinv
    have := List.find?_eq_none.1 hfind f hf
    simp [hv] at this

theorem decodeFiltersFile_ok (fsys : Files) (file : String) (filters : List filter)
    (hdec : decodeFiltersFile fsys file = .ok filters) : ∀ f ∈ filters, f.IsValid = true := by
  cases hraw : fsys.filters file with
  | error e => simp [decodeFiltersFile, hraw] at hdec
  | ok ff =>
    cases hfind : ff.find? (fun f => !f.IsValid) with
    | some f => simp [decodeFiltersFile, hraw, hfind] at hdec
    | none =>
      simp only [decodeFiltersFile, hraw, hfind, Except.ok.injEq] at hdec
      subst hdec
      intro f hf
      have := List.find?_eq_none.1 hfind f hf
      simpa using this

/-- C5: in sync mode, when the decoded filters file holds a filter that fails
validation, the run ends in an error and the only remote call made is the listing of
labels: no filter is deleted and none is created. More generally a sync run whose
trace holds a filter-list, filter-delete or filter-create call has decoded the
filters file into filters that are all valid and has converted all of them. -/
theorem mainAction_sync_invalid_filter (lower : String → String) (api : Remote) (fsys : Files)
    (filtersFile labelsFile : String) :
    (∀ filters : List filter, fsys.filters filtersFile = .ok filters →
      (∃ f ∈ filters, f.IsValid = false) →
      (∃ e, (mainAction lower api fsys filtersFile labelsFile false).1 = .error e) ∧
      (∀ c ∈ (mainAction lower api fsys filtersFile labelsFile false).2.trace,
        c = Call.labelsList) ∧
      (∀ id, Call.filtersDelete id ∉
        (mainAction lower api fsys filtersFile labelsFile false).2.trace) ∧
      (∀ g, Call.filtersCreate g ∉
        (mainAction lower api fsys filtersFile labelsFile false).2.trace)) ∧
    ((∃ c ∈ (mainAction lower api fsys filtersFile labelsFile false).2.trace,
        c = Call.filtersList ∨ (∃ id, c = Call.filtersDelete id) ∨
          (∃ g, c = Call.filtersCreate g)) →
      ∃ filters gmailFilters w1,
        decodeFiltersFile fsys filtersFile = .ok filters ∧
        (∀ f ∈ filters, f.IsValid = true) ∧
        convertToGmailFilters lower api filters (getLabelMap lower api {}).2 =
          (.ok gmailFilters, w1)) := by
  have hg := getLabelMap_trace lower api {}
  rcases hgm : getLabelMap lower api {} with ⟨rg, wg⟩
  rw [hgm] at hg
  simp only [List.nil_append] at hg
  constructor
  · intro filters hdec hinv
    obtain ⟨e, he⟩ := decodeFiltersFile_invalid fsys filtersFile filters hdec hinv
    have hmain : (∃ e, (mainAction lower api fsys filtersFile labelsFile false).1 = .error e) ∧
        ∀ c ∈ (mainAction lower api fsys filtersFile labelsFile false).2.trace,
          c = Call.labelsList := by
      unfold mainAction
      by_cases h1 : filtersFile = ""
      · simp [h1]
      · by_cases h2 : labelsFile = ""
        · simp [h1, h2]
        · cases rg with
          | error e' => simp [h1, h2, hgm, hg]
          | ok u => simp [h1, h2, hgm, he, hg]
    refine ⟨hmain.1, hmain.2, ?_, ?_⟩
    · intro id hmem
      have := hmain.2 _ hmem
      cases this
    · intro g hmem
      have := hmain.2 _ hmem
      cases this
  · rintro ⟨c, hc, hkind⟩
    have hnot : c ≠ Call.labelsList := by
      rcases hkind with h | ⟨id, h⟩ | ⟨g, h⟩ <;> rw [h] <;> simp
    have hnotc : ∀ req, c ≠ Call.labelsCreate req := by
      intro req
      rcases hkind with h | ⟨id, h⟩ | ⟨g, h⟩ <;> rw [h] <;> simp
    unfold mainAction at hc
    by_cases h1 : filtersFile = ""
    · simp [h1] at hc
    · by_cases h2 : labelsFile = ""
      · simp [h1, h2] at hc
      · cases rg with
        | error e' =>
          simp [h1, h2, hgm, hg] at hc
          exact absurd hc hnot
        | ok u =>
          cases hd : decodeFiltersFile fsys filtersFile with
          | error e' =>
            simp [h1, h2, hgm, hg, hd] at hc
            exact absurd hc hnot
          | ok filters =>
            cases hl : decodeLabelsFile fsys labelsFile with
            | error e' =>
              simp [h1, h2, hgm, hg, hd, hl] at hc
              exact absurd hc hnot
            | ok localLabels =>
              rcases hcv : convertToGmailFilters lower api filters wg with ⟨rc, wc⟩
              cases rc with
              | error e' =>
                exfalso
                simp [h1, h2, hgm, hd, hl, hcv] at hc
                obtain ⟨-, calls, htr, -, hall⟩ := convertLoop_trace lower api filters [] wg
                have hcv' : convertLoop lower api filters [] wg = (.error e', wc) := hcv
                rw [hcv'] at htr
                simp only at htr
                rw [htr, hg] at hc
                rcases List.mem_append.1 hc with h | h
                · simp at h
                  exact hnot h
                · obtain ⟨g, -, -, -, hg'⟩ := hall c h
                  exact hnotc _ hg'
              | ok gfs =>
                exact ⟨filters, gfs, wc, rfl, decodeFiltersFile_ok fsys filtersFile filters hd, hcv⟩

/-- An instance of C5: a filters file whose second of three filters is invalid
(the run fails after listing the labels), and a filters file with one valid filter
(the run lists the remote filters after decoding and converting). -/
theorem mainAction_sync_invalid_filter_witness :
    ((∃ e, (mainAction asciiLower sampleRemote sampleFiles "filters.toml" "labels.toml"
        false).1 = .error e) ∧
      (∀ c ∈ (mainAction asciiLower sampleRemote sampleFiles "filters.toml" "labels.toml"
        false).2.trace, c = Call.labelsList) ∧
      (∀ id, Call.filtersDelete id ∉
        (mainAction asciiLower sampleRemote sampleFiles "filters.toml" "labels.toml"
          false).2.trace) ∧
      (∀ g, Call.filtersCreate g ∉
        (mainAction asciiLower sampleRemote sampleFiles "filters.toml" "labels.toml"
          false).2.trace)) ∧
    (∃ filters gmailFilters w1,
      decodeFiltersFile sampleFilesValid "filters.toml" = .ok filters ∧
      (∀ f ∈ filters, f.IsValid = true) ∧
      convertToGmailFilters asciiLower sampleRemote filters
        (getLabelMap asciiLower sampleRemote {}).2 = (.ok gmailFilters, w1)) :=
  ⟨(mainAction_sync_invalid_filter asciiLower sampleRemote sampleFiles "filters.toml"
      "labels.toml").1 [sampleFilter, sampleInvalidFilter, sampleFilter] rfl (by decide),
   (mainAction_sync_invalid_filter asciiLower sampleRemote sampleFilesValid "filters.toml"
      "labels.toml").2 ⟨Call.filtersList, by decide, Or.inl rfl⟩⟩

/-! ### Translating a batch with an invalid filter -/

/-- C6, as the code has it: for a list of local filters that contains an invalid one,
convertToGmailFilters returns an error and no translated filters; the remote calls it
has issued by then are label-creation calls for labels named by the valid filters
that precede the first invalid one, at most one for each of them (so none when the
first filter is the invalid one). -/
theorem convertToGmailFilters_invalid (lower : String → String) (api : Remote)
    (filters : List filter) (w : World) (hinv : ∃ f ∈ filters, f.IsValid = false) :
    (∃ e, (convertToGmailFilters lower api filters w).1 = .error e) ∧
    ∃ calls, (convertToGmailFilters lower api filters w).2.trace = w.trace ++ calls ∧
      calls.length ≤ (filters.takeWhile (fun f => f.IsValid)).length ∧
      ∀ c ∈ calls, ∃ g ∈ filters.takeWhile (fun f => f.IsValid), g.Action.Label ≠ "" ∧
        c = Call.labelsCreate { Name := g.Action.Label } :=
  convertLoop_invalid lower api filters [] w hinv

/-- An instance of C6 as amended: the sample batch in the empty world. -/
theorem convertToGmailFilters_invalid_witness :
    (∃ e, (convertToGmailFilters asciiLower sampleRemote
      [sampleFilter, sampleInvalidFilter, sampleFilter] {}).1 = .error e) ∧
    ∃ calls, (convertToGmailFilters asciiLower sampleRemote
        [sampleFilter, sampleInvalidFilter, sampleFilter] {}).2.trace =
          ({} : World).trace ++ calls ∧
      calls.length ≤
        ([sampleFilter, sampleInvalidFilter, sampleFilter].takeWhile
          (fun f => f.IsValid)).length ∧
      ∀ c ∈ calls, ∃ g ∈ [sampleFilter, sampleInvalidFilter, sampleFilter].takeWhile
          (fun f => f.IsValid), g.Action.Label ≠ "" ∧
        c = Call.labelsCreate { Name := g.Action.Label } :=
  convertToGmailFilters_invalid asciiLower sampleRemote
    [sampleFilter, sampleInvalidFilter, sampleFilter] {} (by decide)

/-- C6 as stated fails: a valid filter whose label is absent from the directory,
followed by an invalid filter. The batch fails on the second filter after the
label-creation call for the first has been issued. -/
theorem convertToGmailFilters_invalid_after_creation :
    (∃ f ∈ [sampleFilter, sampleInvalidFilter], f.IsValid = false) ∧
    (convertToGmailFilters asciiLower sampleRemote [sampleFilter, sampleInvalidFilter] {}).1 =
      .error (Err.criteriaInvalid sampleInvalidFilter.Criteria) ∧
    (convertToGmailFilters asciiLower sampleRemote [sampleFilter, sampleInvalidFilter] {}).2.trace =
      [Call.labelsCreate { Name := "Work" }] := by
  decide

/-! ### Reconciling labels: helper lemmas -/

theorem mapGet_mem (m : List (String × Nat)) (k : String) (p : Nat)
    (h : mapGet m k = some p) : (k, p) ∈ m := by
  induction m with
  | nil => simp [mapGet] at h
  | cons e rest ih =>
    obtain ⟨a, b⟩ := e
    by_cases hk : a = k
    · simp [mapGet, hk] at h
      simp [hk, h]
    · simp [mapGet, hk] at h
      exact List.mem_cons_of_mem _ (ih h)

theorem wellFormed_valid (m : labelMap) (hwf : m.wellFormed = true) (k : String) (p : Nat)
    (h : m.GetByID k = some p) : p < m.pool.length := by
  simp only [labelMap.wellFormed, Bool.and_eq_true, List.all_eq_true, decide_eq_true_eq] at hwf
  exact hwf.1 (k, p) (mapGet_mem _ _ _ h)

theorem wellFormed_inj (m : labelMap) (hwf : m.wellFormed = true) (k k' : String) (p : Nat)
    (h : m.GetByID k = some p) (h' : m.GetByID k' = some p) : k = k' := by
  simp only [labelMap.wellFormed, Bool.and_eq_true, List.all_eq_true, decide_eq_true_eq] at hwf
  have := List.inj_on_of_nodup_map hwf.2 (mapGet_mem _ _ _ h) (mapGet_mem _ _ _ h') rfl
  exact congrArg Prod.fst this

theorem wellFormed_store (m : labelMap) (p : Nat) (l : label) :
    (m.store p l).wellFormed = m.wellFormed := by
  simp [labelMap.wellFormed, labelMap.store]

theorem wellFormed_empty : ({} : labelMap).wellFormed = true := by
  decide

theorem wellFormed_Add (lower : String → String) (m : labelMap) (l : label)
    (hwf : m.wellFormed = true) : (m.Add lower l).wellFormed = true := by
  simp only [labelMap.wellFormed, Bool.and_eq_true, List.all_eq_true, decide_eq_true_eq] at hwf ⊢
  obtain ⟨hv, hnd⟩ := hwf
  have hsub : ∀ e ∈ m.byID.filter (fun e => decide (e.1 ≠ l.Id)), e ∈ m.byID :=
    fun e he => (List.mem_filter.1 he).1
  constructor
  · intro e he
    simp only [labelMap.Add, mapSet, List.mem_cons] at he
    simp only [labelMap.Add, List.length_append, List.length_singleton]
    rcases he with h | h
    · subst h; simp
    · have := hv e (hsub e h)
      omega
  · simp only [labelMap.Add, mapSet, List.map_cons, List.nodup_cons]
    constructor
    · intro hmem
      obtain ⟨e, he, heq⟩ := List.mem_map.1 hmem
      have := hv e (hsub e he)
      omega
    · exact (List.filter_sublist _).map Prod.snd |>.nodup hnd

theorem GetByID_store (m : labelMap) (p : Nat) (l : label) (k : String) :
    (m.store p l).GetByID k = m.GetByID k := rfl

theorem deref_store_same (m : labelMap) (p : Nat) (l : label) (h : p < m.pool.length) :
    (m.store p l).deref p = l := by
  simp [labelMap.deref, labelMap.store, h]

theorem deref_store_other (m : labelMap) (p q : Nat) (l : label) (h : p ≠ q) :
    (m.store p l).deref q = m.deref q := by
  simp [labelMap.deref, labelMap.store, h]

theorem Equals_self (l : label) : l.Equals l = true := by
  obtain ⟨i, n, b, t, llv, mlv, ty⟩ := l
  by_cases h1 : mlv = "show" <;> by_cases h2 : llv = "show" <;>
    simp [label.Equals, h1, h2]

theorem Equals_of_agree (rl l : label) (hId : rl.Id = l.Id) (hName : rl.Name = l.Name)
    (hB : rl.BackgroundColor = l.BackgroundColor) (hT : rl.TextColor = l.TextColor)
    (hTy : rl.Type_ = l.Type_)
    (hM : rl.MessageListVisibility = l.MessageListVisibility ∨
      (rl.MessageListVisibility = "show" ∧ l.MessageListVisibility = ""))
    (hL : rl.LabelListVisibility = l.LabelListVisibility ∨
      (rl.LabelListVisibility = "show" ∧ l.LabelListVisibility = "")) :
    rl.Equals l = true := by
  obtain ⟨i, n, b, t, llv, mlv, ty⟩ := rl
  obtain ⟨i', n', b', t', llv', mlv', ty'⟩ := l
  simp only at hId hName hB hT hTy hM hL
  subst hId hName hB hT hTy
  rcases hM with hM | ⟨hM1, hM2⟩ <;> rcases hL with hL | ⟨hL1, hL2⟩
  · subst hM hL
    exact Equals_self _
  · subst hM hL1 hL2
    by_cases h1 : mlv = "show" <;> simp [label.Equals, h1]
  · subst hM1 hM2 hL
    by_cases h2 : llv = "show" <;> simp [label.Equals, h2]
  · subst hM1 hM2 hL1 hL2
    simp [label.Equals]

theorem updateLabelsLoop_absent (api : Remote) (l : label) (rest : List label) (w : World)
    (n : Nat) (h : w.labels.GetByID l.Id = none) :
    updateLabelsLoop api (l :: rest) w n = updateLabelsLoop api rest w n := by
  simp [updateLabelsLoop, h]

theorem updateLabelsLoop_equal (api : Remote) (l : label) (rest : List label) (w : World)
    (n p : Nat) (h : w.labels.GetByID l.Id = some p) (he : (w.labels.deref p).Equals l = true) :
    updateLabelsLoop api (l :: rest) w n = updateLabelsLoop api rest w n := by
  simp [updateLabelsLoop, h, he]

theorem updateLabelsLoop_update (api : Remote) (l : label) (rest : List label) (w : World)
    (n p : Nat) (h : w.labels.GetByID l.Id = some p) (he : (w.labels.deref p).Equals l = false)
    (hp : p < w.labels.pool.length)
    (hapi : api.labelsPatch w.trace l.Id (updateLabelRequest l) = .ok ()) :
    updateLabelsLoop api (l :: rest) w n =
      updateLabelsLoop api rest
        { w with
          labels := w.labels.store p l
          trace := w.trace ++ [Call.labelsPatch l.Id (updateLabelRequest l)] } (n + 1) := by
  simp [updateLabelsLoop, h, he, UpdateLabel, deref_store_same _ _ _ hp, hapi]

theorem updateLabelsLoop_update_failed (api : Remote) (l : label) (rest : List label)
    (w : World) (n p : Nat) (msg : String) (h : w.labels.GetByID l.Id = some p)
    (he : (w.labels.deref p).Equals l = false) (hp : p < w.labels.pool.length)
    (hapi : api.labelsPatch w.trace l.Id (updateLabelRequest l) = .error msg) :
    updateLabelsLoop api (l :: rest) w n =
      (.error (Err.updatingLabel l.Name msg),
        { w with
          labels := w.labels.store p l
          trace := w.trace ++ [Call.labelsPatch l.Id (updateLabelRequest l)] }, n) := by
  simp [updateLabelsLoop, h, he, UpdateLabel, deref_store_same _ _ _ hp, hapi]

theorem wellFormed_congr (m m' : labelMap) (h1 : m'.byID = m.byID)
    (h2 : m'.pool.length = m.pool.length) : m'.wellFormed = m.wellFormed := by
  simp [labelMap.wellFormed, h1, h2]

theorem patchCount_append_patch (t : List Call) (id : String) (req : gmailLabel) :
    patchCount (t ++ [Call.labelsPatch id req]) = patchCount t + 1 := by
  simp [patchCount, List.countP_append]

theorem updateLabelsLoop_frame (api : Remote) (ls : List label) :
    ∀ (w : World) (n : Nat), w.labels.wellFormed = true →
      (updateLabelsLoop api ls w n).2.1.labels.byID = w.labels.byID ∧
      (updateLabelsLoop api ls w n).2.1.labels.byName = w.labels.byName ∧
      (updateLabelsLoop api ls w n).2.1.labels.pool.length = w.labels.pool.length ∧
      (updateLabelsLoop api ls w n).2.1.files = w.files ∧
      ∀ q, (∀ l ∈ ls, w.labels.GetByID l.Id ≠ some q) →
        (updateLabelsLoop api ls w n).2.1.labels.deref q = w.labels.deref q := by
  induction ls with
  | nil => intro w n _; simp [updateLabelsLoop]
  | cons l rest ih =>
    intro w n hwf
    cases hget : w.labels.GetByID l.Id with
    | none =>
      rw [updateLabelsLoop_absent api l rest w n hget]
      obtain ⟨h1, h2, h3, h4, h5⟩ := ih w n hwf
      exact ⟨h1, h2, h3, h4, fun q hq => h5 q (fun l' hl' => hq l' (List.mem_cons_of_mem _ hl'))⟩
    | some p =>
      cases he : (w.labels.deref p).Equals l with
      | true =>
        rw [updateLabelsLoop_equal api l rest w n p hget he]
        obtain ⟨h1, h2, h3, h4, h5⟩ := ih w n hwf
        exact ⟨h1, h2, h3, h4,
          fun q hq => h5 q (fun l' hl' => hq l' (List.mem_cons_of_mem _ hl'))⟩
      | false =>
        have hp := wellFormed_valid _ hwf _ _ hget
        cases hapi : api.labelsPatch w.trace l.Id (updateLabelRequest l) with
        | error msg =>
          rw [updateLabelsLoop_update_failed api l rest w n p msg hget he hp hapi]
          refine ⟨rfl, rfl, by simp [labelMap.store], rfl, ?_⟩
          intro q hq
          have hne : p ≠ q := by
            intro h
            exact hq l (List.mem_cons_self _ _) (by rw [hget, h])
          exact deref_store_other _ _ _ _ hne
        | ok u =>
          rw [updateLabelsLoop_update api l rest w n p hget he hp hapi]
          have hwf1 : (w.labels.store p l).wellFormed = true := by
            rw [wellFormed_store]; exact hwf
          obtain ⟨h1, h2, h3, h4, h5⟩ := ih
            { w with
              labels := w.labels.store p l
              trace := w.trace ++ [Call.labelsPatch l.Id (updateLabelRequest l)] } (n + 1) hwf1
          refine ⟨h1, h2, by rw [h3]; simp [labelMap.store], h4, ?_⟩
          intro q hq
          have hne : p ≠ q := by
            intro h
            exact hq l (List.mem_cons_self _ _) (by rw [hget, h])
          rw [h5 q (fun l' hl' => hq l' (List.mem_cons_of_mem _ hl'))]
          exact deref_store_other _ _ _ _ hne

theorem updateLabelsLoop_settled (api : Remote) (ls : List label) :
    ∀ (w : World) (n : Nat), w.labels.wellFormed = true → (ls.map label.Id).Nodup →
      (updateLabelsLoop api ls w n).1 = .ok () →
      ∀ l ∈ ls, ∀ p, (updateLabelsLoop api ls w n).2.1.labels.GetByID l.Id = some p →
        ((updateLabelsLoop api ls w n).2.1.labels.deref p).Equals l = true := by
  induction ls with
  | nil => intro w n _ _ _ l hl; simp at hl
  | cons l rest ih =>
    intro w n hwf hnd hok
    simp only [List.map_cons, List.nodup_cons] at hnd
    obtain ⟨hnot, hnd'⟩ := hnd
    have hother : ∀ p, w.labels.GetByID l.Id = some p →
        ∀ l' ∈ rest, w.labels.GetByID l'.Id ≠ some p := by
      intro p hget l' hl' hget'
      have := wellFormed_inj _ hwf _ _ _ hget hget'
      exact hnot (List.mem_map.2 ⟨l', hl', this.symm⟩)
    cases hget : w.labels.GetByID l.Id with
    | none =>
      rw [updateLabelsLoop_absent api l rest w n hget] at hok ⊢
      intro l' hl' p hp'
      rcases List.mem_cons.1 hl' with h | h
      · subst h
        have hb := (updateLabelsLoop_frame api rest w n hwf).1
        simp only [labelMap.GetByID] at hp' hget
        rw [hb, hget] at hp'
        cases hp'
      · exact ih w n hwf hnd' hok l' h p hp'
    | some p =>
      cases he : (w.labels.deref p).Equals l with
      | true =>
        rw [updateLabelsLoop_equal api l rest w n p hget he] at hok ⊢
        intro l' hl' p' hp'
        rcases List.mem_cons.1 hl' with h | h
        · subst h
          obtain ⟨hb, -, -, -, hfr⟩ := updateLabelsLoop_frame api rest w n hwf
          simp only [labelMap.GetByID] at hp' hget
          rw [hb, hget] at hp'
          cases hp'
          rw [hfr p (hother p (by simpa [labelMap.GetByID] using hget))]
          exact he
        · exact ih w n hwf hnd' hok l' h p' hp'
      | false =>
        have hp := wellFormed_valid _ hwf _ _ hget
        cases hapi : api.labelsPatch w.trace l.Id (updateLabelRequest l) with
        | error msg =>
          rw [updateLabelsLoop_update_failed api l rest w n p msg hget he hp hapi] at hok
          cases hok
        | ok u =>
          rw [updateLabelsLoop_update api l rest w n p hget he hp hapi] at hok ⊢
          have hwf1 : (w.labels.store p l).wellFormed = true := by
            rw [wellFormed_store]; exact hwf
          intro l' hl' p' hp'
          rcases List.mem_cons.1 hl' with h | h
          · subst h
            obtain ⟨hb, -, -, -, hfr⟩ := updateLabelsLoop_frame api rest
              { w with
                labels := w.labels.store p l'
                trace := w.trace ++ [Call.labelsPatch l'.Id (updateLabelRequest l')] }
              (n + 1) hwf1
            simp only [labelMap.GetByID] at hp' hget
            rw [hb] at hp'
            change mapGet w.labels.byID l'.Id = some p' at hp'
            rw [hget] at hp'
            cases hp'
            rw [hfr p (hother p (by simpa [labelMap.GetByID] using hget))]
            change (labelMap.deref (w.labels.store p l') p).Equals l' = true
            rw [deref_store_same _ _ _ hp]
            exact Equals_self _
          · exact ih _ (n + 1) hwf1 hnd' hok l' h p' hp'

theorem updateLabelsLoop_of_settled (api : Remote) (ls : List label) (w : World) :
    ∀ (n : Nat),
      (∀ l ∈ ls, ∀ p, w.labels.GetByID l.Id = some p → (w.labels.deref p).Equals l = true) →
      updateLabelsLoop api ls w n = (.ok (), w, n) := by
  induction ls with
  | nil => intro n _; rfl
  | cons l rest ih =>
    intro n h
    have hrest := ih n (fun l' hl' => h l' (List.mem_cons_of_mem _ hl'))
    cases hget : w.labels.GetByID l.Id with
    | none => rw [updateLabelsLoop_absent api l rest w n hget]; exact hrest
    | some p =>
      rw [updateLabelsLoop_equal api l rest w n p hget
        (h l (List.mem_cons_self _ _) p hget)]
      exact hrest

theorem updateLabelsLoop_count (api : Remote)
    (hapi : ∀ t id req, api.labelsPatch t id req = .ok ()) (ls : List label) :
    ∀ (w : World) (n : Nat), w.labels.wellFormed = true →
      (updateLabelsLoop api ls w n).1 = .ok () ∧
      patchCount (updateLabelsLoop api ls w n).2.1.trace + n =
        patchCount w.trace + (updateLabelsLoop api ls w n).2.2 ∧
      (updateLabelsLoop api ls w n).2.1.trace.length + n =
        w.trace.length + (updateLabelsLoop api ls w n).2.2 := by
  induction ls with
  | nil => intro w n _; simp [updateLabelsLoop]
  | cons l rest ih =>
    intro w n hwf
    cases hget : w.labels.GetByID l.Id with
    | none => rw [updateLabelsLoop_absent api l rest w n hget]; exact ih w n hwf
    | some p =>
      cases he : (w.labels.deref p).Equals l with
      | true => rw [updateLabelsLoop_equal api l rest w n p hget he]; exact ih w n hwf
      | false =>
        have hp := wellFormed_valid _ hwf _ _ hget
        rw [updateLabelsLoop_update api l rest w n p hget he hp (hapi _ _ _)]
        have hwf1 : (w.labels.store p l).wellFormed = true := by
          rw [wellFormed_store]; exact hwf
        obtain ⟨h1, h2, h3⟩ := ih
          { w with
            labels := w.labels.store p l
            trace := w.trace ++ [Call.labelsPatch l.Id (updateLabelRequest l)] } (n + 1) hwf1
        refine ⟨h1, ?_, ?_⟩
        · rw [patchCount_append_patch] at h2
          omega
        · simp only [List.length_append, List.length_singleton] at h3
          omega

/-! ### Every directory the program builds is well-formed -/

theorem foldl_Add_wellFormed (lower : String → String) (ls : List gmailLabel) :
    ∀ m : labelMap, m.wellFormed = true →
      (ls.foldl (fun m lbl => labelMap.Add lower m (labelFromAPI lower lbl)) m).wellFormed
        = true := by
  induction ls with
  | nil => intro m h; exact h
  | cons lbl rest ih =>
    intro m h
    exact ih _ (wellFormed_Add lower m _ h)

theorem getLabelMap_wellFormed (lower : String → String) (api : Remote) (w : World)
    (h : w.labels.wellFormed = true) :
    (getLabelMap lower api w).2.labels.wellFormed = true := by
  cases hl : api.labelsList w.trace with
  | error msg => simpa [getLabelMap, hl] using h
  | ok labelList =>
    simpa [getLabelMap, hl] using foldl_Add_wellFormed lower labelList {} wellFormed_empty

theorem createLabelIfDoesNotExist_wellFormed (lower : String → String) (api : Remote)
    (name : String) (w : World) (h : w.labels.wellFormed = true) :
    (createLabelIfDoesNotExist lower api name w).2.labels.wellFormed = true := by
  cases h1 : w.labels.GetByName lower name with
  | some p => simpa [createLabelIfDoesNotExist, h1] using h
  | none =>
    cases h2 : api.labelsCreate w.trace { Name := name } with
    | error msg => simpa [createLabelIfDoesNotExist, h1, h2] using h
    | ok lbl =>
      simpa [createLabelIfDoesNotExist, h1, h2] using wellFormed_Add lower w.labels _ h

theorem toGmailFilters_wellFormed (lower : String → String) (api : Remote) (f : filter)
    (w : World) (h : w.labels.wellFormed = true) :
    (toGmailFilters lower api f w).2.labels.wellFormed = true := by
  cases hv : f.IsValid with
  | false =>
    obtain ⟨e, he⟩ := toGmailFilters_invalid lower api f w hv
    simpa [he] using h
  | true =>
    by_cases hl : f.Action.Label = ""
    · simpa [toGmailFilters_no_label lower api f w hv hl] using h
    · have hc := createLabelIfDoesNotExist_wellFormed lower api f.Action.Label w h
      rcases hcr : createLabelIfDoesNotExist lower api f.Action.Label w with ⟨r, w1⟩
      rw [hcr] at hc
      cases r with
      | error e => simpa [toGmailFilters_unresolved lower api f w w1 e hv hl hcr] using hc
      | ok i => simpa [toGmailFilters_resolved lower api f w w1 i hv hl hcr] using hc

theorem convertLoop_wellFormed (lower : String → String) (api : Remote) (fs : List filter) :
    ∀ (acc : List gmailFilter) (w : World), w.labels.wellFormed = true →
      (convertLoop lower api fs acc w).2.labels.wellFormed = true := by
  induction fs with
  | nil => intro acc w h; simpa [convertLoop] using h
  | cons f rest ih =>
    intro acc w h
    have ht := toGmailFilters_wellFormed lower api f w h
    rcases hto : toGmailFilters lower api f w with ⟨r, w1⟩
    rw [hto] at ht
    cases r with
    | error e => simpa [convertLoop, hto] using ht
    | ok gfs => simpa [convertLoop, hto] using ih (acc ++ gfs) w1 ht

theorem updateLabelsLoop_wellFormed (api : Remote) (ls : List label) (w : World) (n : Nat)
    (h : w.labels.wellFormed = true) :
    (updateLabelsLoop api ls w n).2.1.labels.wellFormed = true := by
  obtain ⟨h1, -, h3, -, -⟩ := updateLabelsLoop_frame api ls w n h
  rw [wellFormed_congr _ _ h1 h3]
  exact h

/-! ### Reconciling labels: the claims -/

/-- C7, as the code has it: for a well-formed directory and local labels with
pairwise distinct ids, if updateLabels completes successfully then a second run on
the resulting world with the same local labels succeeds, issues no call and leaves
the world as it is. -/
theorem updateLabels_idempotent (api : Remote) (localLabels : List label) (w : World)
    (hwf : w.labels.wellFormed = true) (hnd : (localLabels.map label.Id).Nodup)
    (hok : (updateLabels api localLabels w).1 = .ok ()) :
    updateLabels api localLabels (updateLabels api localLabels w).2 =
      (.ok (), (updateLabels api localLabels w).2) := by
  have hs := updateLabelsLoop_settled api localLabels w 0 hwf hnd hok
  have := updateLabelsLoop_of_settled api localLabels (updateLabelsLoop api localLabels w 0).2.1 0 hs
  simp only [updateLabels]
  rw [this]

/-- An instance of C7 as amended: one local label that renames the label of the
sample world; the first run updates it, the second does nothing. -/
theorem updateLabels_idempotent_witness :
    (updateLabels sampleRemote [sampleLabelRenamed] sampleWorld).2.trace =
      [Call.labelsPatch "Label_1" (updateLabelRequest sampleLabelRenamed)] ∧
    updateLabels sampleRemote [sampleLabelRenamed]
        (updateLabels sampleRemote [sampleLabelRenamed] sampleWorld).2 =
      (.ok (), (updateLabels sampleRemote [sampleLabelRenamed] sampleWorld).2) :=
  ⟨by decide,
   updateLabels_idempotent sampleRemote [sampleLabelRenamed] sampleWorld
     (by decide) (by decide) (by decide)⟩

/-- C7 as stated fails: two valid local labels that share the id of a directory
entry and differ in name. The first run succeeds and leaves the entry equal to the
second label, so the second run updates it to the first and back: two more update
calls. -/
theorem updateLabels_not_idempotent :
    sampleLabel.IsValid = true ∧ sampleLabelRenamed.IsValid = true ∧
    sampleWorld.labels.wellFormed = true ∧
    (updateLabels sampleRemote [sampleLabel, sampleLabelRenamed] sampleWorld).1 = .ok () ∧
    patchCount (updateLabels sampleRemote [sampleLabel, sampleLabelRenamed]
        (updateLabels sampleRemote [sampleLabel, sampleLabelRenamed] sampleWorld).2).2.trace =
      patchCount
        (updateLabels sampleRemote [sampleLabel, sampleLabelRenamed] sampleWorld).2.trace + 2 := by
  decide

/-- C8: when the directory entry for a local label's id agrees with the local label
on every field, except that a visibility (MessageListVisibility, LabelListVisibility
or both) may be "show" on the entry and "" on the local label, the entry Equals the
local label, updateLabels issues no call for it and leaves the world, and so the
entry, unchanged. -/
theorem updateLabels_default_fill (api : Remote) (w : World) (l : label) (p : Nat)
    (hget : w.labels.GetByID l.Id = some p)
    (hId : (w.labels.deref p).Id = l.Id) (hName : (w.labels.deref p).Name = l.Name)
    (hB : (w.labels.deref p).BackgroundColor = l.BackgroundColor)
    (hT : (w.labels.deref p).TextColor = l.TextColor)
    (hTy : (w.labels.deref p).Type_ = l.Type_)
    (hM : (w.labels.deref p).MessageListVisibility = l.MessageListVisibility ∨
      ((w.labels.deref p).MessageListVisibility = "show" ∧ l.MessageListVisibility = ""))
    (hL : (w.labels.deref p).LabelListVisibility = l.LabelListVisibility ∨
      ((w.labels.deref p).LabelListVisibility = "show" ∧ l.LabelListVisibility = "")) :
    (w.labels.deref p).Equals l = true ∧
    updateLabels api [l] w = (.ok (), w) ∧
    ∀ (rest : List label) (n : Nat),
      updateLabelsLoop api (l :: rest) w n = updateLabelsLoop api rest w n := by
  have he := Equals_of_agree (w.labels.deref p) l hId hName hB hT hTy hM hL
  refine ⟨he, ?_, fun rest n => updateLabelsLoop_equal api l rest w n p hget he⟩
  simp only [updateLabels]
  rw [updateLabelsLoop_equal api l [] w 0 p hget he]
  rfl

/-- An instance of C8: the remote label has both visibilities "show", the local
record leaves both empty. -/
theorem updateLabels_default_fill_witness :
    (sampleWorldShown.labels.deref 0).Equals sampleLabel = true ∧
    updateLabels sampleRemote [sampleLabel] sampleWorldShown = (.ok (), sampleWorldShown) ∧
    ∀ (rest : List label) (n : Nat),
      updateLabelsLoop sampleRemote (sampleLabel :: rest) sampleWorldShown n =
        updateLabelsLoop sampleRemote rest sampleWorldShown n :=
  updateLabels_default_fill sampleRemote sampleWorldShown sampleLabel 0
    (by decide) (by decide) (by decide) (by decide) (by decide) (by decide)
    (Or.inr (by decide)) (Or.inr (by decide))

/-- C9, as the code has it: for labels a and b that agree on Id, Name,
BackgroundColor, TextColor and Type and whose visibilities each either coincide or
are "show" on a and "" on b, a.Equals(b) is true; b.Equals(a) is true exactly when
both visibilities coincide. -/
theorem Equals_default_fill (a b : label) (hId : a.Id = b.Id) (hName : a.Name = b.Name)
    (hB : a.BackgroundColor = b.BackgroundColor) (hT : a.TextColor = b.TextColor)
    (hTy : a.Type_ = b.Type_)
    (hM : a.MessageListVisibility = b.MessageListVisibility ∨
      (a.MessageListVisibility = "show" ∧ b.MessageListVisibility = ""))
    (hL : a.LabelListVisibility = b.LabelListVisibility ∨
      (a.LabelListVisibility = "show" ∧ b.LabelListVisibility = "")) :
    a.Equals b = true ∧
    (b.Equals a = true ↔
      a.MessageListVisibility = b.MessageListVisibility ∧
      a.LabelListVisibility = b.LabelListVisibility) := by
  refine ⟨Equals_of_agree a b hId hName hB hT hTy hM hL, ?_⟩
  obtain ⟨i, n, bg, t, llv, mlv, ty⟩ := a
  obtain ⟨i', n', bg', t', llv', mlv', ty'⟩ := b
  simp only at hId hName hB hT hTy hM hL ⊢
  subst hId hName hB hT hTy
  rcases hM with hM | ⟨hM1, hM2⟩ <;> rcases hL with hL | ⟨hL1, hL2⟩
  · subst hM hL
    simp [Equals_self]
  · subst hM hL1 hL2
    by_cases h : mlv = "show" <;> simp [label.Equals, h]
  · subst hM1 hM2 hL
    by_cases h : llv = "show" <;> simp [label.Equals, h]
  · subst hM1 hM2 hL1 hL2
    simp [label.Equals]

/-- An instance of C9 as amended: "show" on the first label, "" on the second. -/
theorem Equals_default_fill_witness :
    label.Equals { sampleLabel with MessageListVisibility := "show" } sampleLabel = true ∧
    (label.Equals sampleLabel { sampleLabel with MessageListVisibility := "show" } = true ↔
      ({ sampleLabel with MessageListVisibility := "show" } : label).MessageListVisibility =
        sampleLabel.MessageListVisibility ∧
      ({ sampleLabel with MessageListVisibility := "show" } : label).LabelListVisibility =
        sampleLabel.LabelListVisibility) :=
  Equals_default_fill { sampleLabel with MessageListVisibility := "show" } sampleLabel
    rfl rfl rfl rfl rfl (Or.inr (by decide)) (Or.inl rfl)

/-- C9 as stated fails: two labels that agree on every field but
MessageListVisibility, "" on the first and "show" on the second. The second Equals
the first, the first does not Equal the second. -/
theorem Equals_not_symmetric :
    label.Equals { sampleLabel with MessageListVisibility := "show" } sampleLabel = true ∧
    label.Equals sampleLabel { sampleLabel with MessageListVisibility := "show" } = false := by
  decide

/-- C10: with every update call succeeding and a well-formed directory, updateLabels
handles the local labels in order. A label whose id is absent from the directory, or
whose directory entry Equals it, is skipped: no call, no change, the counter
unchanged. Otherwise the entry is overwritten with the local label, one update call
for it is appended to the trace and the counter is increased by one. For the whole
list: the run succeeds, every call it appends is an update call, their number is the
final counter, and an entry whose id occurs in no local label is unchanged. -/
theorem updateLabels_cases (api : Remote)
    (hapi : ∀ t id req, api.labelsPatch t id req = .ok ()) (w : World)
    (hwf : w.labels.wellFormed = true) :
    (∀ (l : label) (rest : List label) (n : Nat),
      (w.labels.GetByID l.Id = none →
        updateLabelsLoop api (l :: rest) w n = updateLabelsLoop api rest w n) ∧
      (∀ p, w.labels.GetByID l.Id = some p → (w.labels.deref p).Equals l = true →
        updateLabelsLoop api (l :: rest) w n = updateLabelsLoop api rest w n) ∧
      (∀ p, w.labels.GetByID l.Id = some p → (w.labels.deref p).Equals l = false →
        (w.labels.store p l).deref p = l ∧
        (w.labels.store p l).byID = w.labels.byID ∧
        (w.labels.store p l).byName = w.labels.byName ∧
        updateLabelsLoop api (l :: rest) w n =
          updateLabelsLoop api rest
            { w with
              labels := w.labels.store p l
              trace := w.trace ++ [Call.labelsPatch l.Id (updateLabelRequest l)] } (n + 1))) ∧
    (∀ localLabels : List label,
      (updateLabels api localLabels w).1 = .ok () ∧
      patchCount (updateLabels api localLabels w).2.trace =
        patchCount w.trace + (updateLabelsLoop api localLabels w 0).2.2 ∧
      (updateLabels api localLabels w).2.trace.length =
        w.trace.length + (updateLabelsLoop api localLabels w 0).2.2 ∧
      ∀ k, (∀ l ∈ localLabels, l.Id ≠ k) →
        (updateLabels api localLabels w).2.labels.GetByID k = w.labels.GetByID k ∧
        ∀ p, w.labels.GetByID k = some p →
          (updateLabels api localLabels w).2.labels.deref p = w.labels.deref p) := by
  constructor
  · intro l rest n
    refine ⟨fun h => updateLabelsLoop_absent api l rest w n h,
      fun p h he => updateLabelsLoop_equal api l rest w n p h he, ?_⟩
    intro p h he
    have hp := wellFormed_valid _ hwf _ _ h
    exact ⟨deref_store_same _ _ _ hp, rfl, rfl,
      updateLabelsLoop_update api l rest w n p h he hp (hapi _ _ _)⟩
  · intro localLabels
    obtain ⟨h1, h2, h3⟩ := updateLabelsLoop_count api hapi localLabels w 0 hwf
    obtain ⟨hb, -, -, -, hfr⟩ := updateLabelsLoop_frame api localLabels w 0 hwf
    refine ⟨h1, by simpa [updateLabels] using h2, by simpa [updateLabels] using h3, ?_⟩
    intro k hk
    refine ⟨by simp only [updateLabels, labelMap.GetByID]; rw [hb], ?_⟩
    intro p hp
    apply hfr
    intro l hl hget
    exact hk l hl (wellFormed_inj _ hwf _ _ _ hget hp)

/-- An instance of C10: the sample remote side and the sample world. -/
theorem updateLabels_cases_witness :
    (sampleWorld.labels.store 0 sampleLabelRenamed).deref 0 = sampleLabelRenamed ∧
    updateLabelsLoop sampleRemote
        [sampleLabelRenamed, { sampleLabel with Id := "Label_9" }] sampleWorld 0 =
      updateLabelsLoop sampleRemote [{ sampleLabel with Id := "Label_9" }]
        { sampleWorld with
          labels := sampleWorld.labels.store 0 sampleLabelRenamed
          trace := sampleWorld.trace ++
            [Call.labelsPatch sampleLabelRenamed.Id (updateLabelRequest sampleLabelRenamed)] }
        (0 + 1) ∧
    (updateLabels sampleRemote [sampleLabelRenamed, { sampleLabel with Id := "Label_9" }]
      sampleWorld).1 = .ok () ∧
    patchCount (updateLabels sampleRemote
        [sampleLabelRenamed, { sampleLabel with Id := "Label_9" }] sampleWorld).2.trace =
      patchCount sampleWorld.trace +
        (updateLabelsLoop sampleRemote
          [sampleLabelRenamed, { sampleLabel with Id := "Label_9" }] sampleWorld 0).2.2 ∧
    (updateLabelsLoop sampleRemote
      [sampleLabelRenamed, { sampleLabel with Id := "Label_9" }] sampleWorld 0).2.2 = 1 :=
  have h := (updateLabels_cases sampleRemote (fun _ _ _ => rfl) sampleWorld (by decide)).2
    [sampleLabelRenamed, { sampleLabel with Id := "Label_9" }]
  have h' := ((updateLabels_cases sampleRemote (fun _ _ _ => rfl) sampleWorld (by decide)).1
    sampleLabelRenamed [{ sampleLabel with Id := "Label_9" }] 0).2.2 0 (by decide) (by decide)
  ⟨h'.1, h'.2.2.2, h.1, h.2.1, by decide⟩

/-! ### Ordering of filters -/

theorem stringsCompare_eq_zero (a b : String) : stringsCompare a b = 0 ↔ a = b := by
  unfold stringsCompare
  by_cases h : a = b
  · simp [h]
  · simp only [h, if_false, iff_false]
    split <;> decide

theorem stringsCompare_neg (a b : String) : stringsCompare a b < 0 ↔ a < b := by
  unfold stringsCompare
  by_cases h : a = b
  · subst h; simp
  · rw [if_neg h]
    have hiff : a < b ↔ a.data < b.data := String.lt_iff_toList_lt
    by_cases hlt : a.data < b.data
    · rw [if_pos hlt]; simp [hiff.2 hlt]
    · rw [if_neg hlt]
      have : ¬ a < b := fun h' => hlt (hiff.1 h')
      simp [this]

theorem stringsCompare_pos (a b : String) : 0 < stringsCompare a b ↔ b < a := by
  unfold stringsCompare
  by_cases h : a = b
  · subst h; simp
  · rw [if_neg h]
    have hiff : a < b ↔ a.data < b.data := String.lt_iff_toList_lt
    by_cases hlt : a.data < b.data
    · rw [if_pos hlt]
      have : ¬ b < a := not_lt.2 (le_of_lt (hiff.2 hlt))
      simp [this]
    · rw [if_neg hlt]
      have hnlt : ¬ a < b := fun h' => hlt (hiff.1 h')
      have : b < a := lt_of_le_of_ne (not_lt.1 hnlt) (Ne.symm h)
      simp [this]

theorem stringsCompare_of_lt (a b : String) (h : a < b) : stringsCompare a b = -1 := by
  have hne : a ≠ b := ne_of_lt h
  have hd : a.data < b.data := String.lt_iff_toList_lt.1 h
  simp [stringsCompare, hne, hd]

theorem stringsCompare_of_gt (a b : String) (h : b < a) : stringsCompare a b = 1 := by
  have hne : a ≠ b := (ne_of_lt h).symm
  have hd : ¬ a.data < b.data := fun h' => lt_asymm h (String.lt_iff_toList_lt.2 h')
  simp [stringsCompare, hne, hd]

theorem stringsCompare_swap (a b : String) : stringsCompare b a = - stringsCompare a b := by
  rcases lt_trichotomy a b with h | h | h
  · rw [stringsCompare_of_lt a b h, stringsCompare_of_gt b a h]; rfl
  · subst h; simp [stringsCompare]
  · rw [stringsCompare_of_gt a b h, stringsCompare_of_lt b a h]

theorem lexCompare_swap (as : List String) :
    ∀ bs : List String, lexCompare bs as = - lexCompare as bs := by
  induction as with
  | nil => intro bs; cases bs <;> simp [lexCompare]
  | cons a as ih =>
    intro bs
    cases bs with
    | nil => simp [lexCompare]
    | cons b bs =>
      by_cases hab : a = b
      · subst hab
        simp [lexCompare, ih bs]
      · have hba : ¬ b = a := fun h' => hab h'.symm
        simp [lexCompare, hab, hba, stringsCompare_swap a b]

theorem cons_lt_cons_iff_lex (a b : String) (as bs : List String) :
    a :: as < b :: bs ↔ a < b ∨ (a = b ∧ as < bs) := by
  constructor
  · intro h
    cases h with
    | cons h => exact Or.inr ⟨rfl, h⟩
    | rel h => exact Or.inl h
  · rintro (h | ⟨rfl, h⟩)
    · exact List.Lex.rel h
    · exact List.Lex.cons h

theorem lexCompare_neg (as : List String) :
    ∀ bs : List String, as.length = bs.length → (lexCompare as bs < 0 ↔ as < bs) := by
  induction as with
  | nil =>
    intro bs h
    cases bs with
    | nil => simp [lexCompare]
    | cons b bs => simp at h
  | cons a as ih =>
    intro bs h
    cases bs with
    | nil => simp at h
    | cons b bs =>
      simp only [List.length_cons, add_left_inj] at h
      rw [cons_lt_cons_iff_lex]
      by_cases hab : a = b
      · subst hab
        simp [lexCompare, ih bs h]
      · simp [lexCompare, hab, stringsCompare_neg]

theorem lexCompare_eq_zero (as : List String) :
    ∀ bs : List String, as.length = bs.length → (lexCompare as bs = 0 ↔ as = bs) := by
  induction as with
  | nil =>
    intro bs h
    cases bs with
    | nil => simp [lexCompare]
    | cons b bs => simp at h
  | cons a as ih =>
    intro bs h
    cases bs with
    | nil => simp at h
    | cons b bs =>
      simp only [List.length_cons, add_left_inj] at h
      by_cases hab : a = b
      · subst hab
        simp [lexCompare, ih bs h]
      · simp [lexCompare, hab, stringsCompare_eq_zero]

theorem lexCompare_pos (as : List String) :
    ∀ bs : List String, as.length = bs.length → (0 < lexCompare as bs ↔ bs < as) := by
  induction as with
  | nil =>
    intro bs h
    cases bs with
    | nil => simp [lexCompare]
    | cons b bs => simp at h
  | cons a as ih =>
    intro bs h
    cases bs with
    | nil => simp at h
    | cons b bs =>
      simp only [List.length_cons, add_left_inj] at h
      rw [cons_lt_cons_iff_lex]
      by_cases hab : a = b
      · subst hab
        simp [lexCompare, ih bs h]
      · have hba : ¬ b = a := fun h' => hab h'.symm
        simp [lexCompare, hab, hba, stringsCompare_pos]

theorem Compare_eq_lexCompare (f g : filter) :
    f.Compare g = lexCompare f.sortKey g.sortKey := by
  simp only [filter.Compare, filterCriteria.Compare, filter.sortKey, lexCompare, ne_eq,
    stringsCompare_eq_zero]
  by_cases h1 : f.Criteria.To = g.Criteria.To <;>
    by_cases h2 : f.Criteria.From = g.Criteria.From <;>
    by_cases h3 : f.Criteria.Subject = g.Criteria.Subject <;>
    by_cases h4 : f.Criteria.Query = g.Criteria.Query <;>
    by_cases h5 : f.Criteria.NegatedQuery = g.Criteria.NegatedQuery <;>
    simp [h1, h2, h3, h4, h5]

theorem Compare_neg (f g : filter) : f.Compare g < 0 ↔ f.sortKey < g.sortKey := by
  rw [Compare_eq_lexCompare]
  exact lexCompare_neg _ _ rfl

theorem Compare_pos (f g : filter) : 0 < f.Compare g ↔ g.sortKey < f.sortKey := by
  rw [Compare_eq_lexCompare]
  exact lexCompare_pos _ _ rfl

theorem Compare_eq_zero (f g : filter) : f.Compare g = 0 ↔ f.sortKey = g.sortKey := by
  rw [Compare_eq_lexCompare]
  exact lexCompare_eq_zero _ _ rfl

theorem Compare_nonpos (f g : filter) : f.Compare g ≤ 0 ↔ f.sortKey ≤ g.sortKey := by
  rw [← not_lt, Compare_pos, not_lt]

/-- C11: Compare is the lexicographic comparison of the tuples (To, From, Subject,
Query, NegatedQuery): it is the comparison of the first pair of fields that differ;
it is negative, zero or positive exactly as the tuple of f is below, equal to or
above the tuple of g in the lexicographic order of the string order; it is 0 exactly
when the five fields are pairwise equal; filters with the same five fields compare
alike, whatever their other fields; swapping the arguments negates the result; and
the order is transitive. -/
theorem filter_Compare_lexicographic (f g : filter) :
    f.Compare g = lexCompare f.sortKey g.sortKey ∧
    (f.Compare g < 0 ↔ f.sortKey < g.sortKey) ∧
    (0 < f.Compare g ↔ g.sortKey < f.sortKey) ∧
    (f.Compare g = 0 ↔
      f.Criteria.To = g.Criteria.To ∧ f.Criteria.From = g.Criteria.From ∧
      f.Criteria.Subject = g.Criteria.Subject ∧ f.Criteria.Query = g.Criteria.Query ∧
      f.Criteria.NegatedQuery = g.Criteria.NegatedQuery) ∧
    (∀ f' g' : filter, f'.sortKey = f.sortKey → g'.sortKey = g.sortKey →
      f'.Compare g' = f.Compare g) ∧
    g.Compare f = - f.Compare g ∧
    (f.Compare g = 0 → g.Compare f = 0) ∧
    (∀ h : filter, f.Compare g < 0 → g.Compare h < 0 → f.Compare h < 0) ∧
    (∀ h : filter, f.Compare g ≤ 0 → g.Compare h ≤ 0 → f.Compare h ≤ 0) ∧
    (∀ h : filter, f.Compare g = 0 → g.Compare h = 0 → f.Compare h = 0) := by
  refine ⟨Compare_eq_lexCompare f g, Compare_neg f g, Compare_pos f g, ?_, ?_, ?_, ?_, ?_, ?_, ?_⟩
  · rw [Compare_eq_zero]
    simp [filter.sortKey]
  · intro f' g' hf hg
    rw [Compare_eq_lexCompare, Compare_eq_lexCompare, hf, hg]
  · rw [Compare_eq_lexCompare, Compare_eq_lexCompare]
    exact lexCompare_swap _ _
  · intro h
    rw [Compare_eq_zero] at h ⊢
    exact h.symm
  · intro h h1 h2
    rw [Compare_neg] at h1 h2 ⊢
    exact lt_trans h1 h2
  · intro h h1 h2
    rw [Compare_nonpos] at h1 h2 ⊢
    exact le_trans h1 h2
  · intro h h1 h2
    rw [Compare_eq_zero] at h1 h2 ⊢
    exact h1.trans h2

/-! ### The exported order of filters -/

theorem Compare_swap (f g : filter) : g.Compare f = - f.Compare g := by
  rw [Compare_eq_lexCompare, Compare_eq_lexCompare]
  exact lexCompare_swap _ _

theorem sortRel_iff (a b : filter) :
    (decide (filter.Compare b a < 0) = false) ↔ filter.Compare a b ≤ 0 := by
  rw [Compare_swap a b]
  simp

theorem sortRel_total :
    IsTotal filter (fun a b => decide (filter.Compare b a < 0) = false) :=
  ⟨fun a b => by
    simp only [sortRel_iff, Compare_nonpos]
    exact le_total _ _⟩

theorem sortRel_trans :
    IsTrans filter (fun a b => decide (filter.Compare b a < 0) = false) :=
  ⟨fun a b c => by
    simp only [sortRel_iff, Compare_nonpos]
    exact le_trans⟩

theorem SliceStable_filters_perm (filters : List filter) :
    (SliceStable (fun a b => decide (filter.Compare a b < 0)) filters).Perm filters :=
  List.perm_insertionSort _ _

theorem SliceStable_filters_sorted (filters : List filter) :
    (SliceStable (fun a b => decide (filter.Compare a b < 0)) filters).Pairwise
      (fun a b => filter.Compare a b ≤ 0) := by
  haveI := sortRel_total
  haveI := sortRel_trans
  have h := List.sorted_insertionSort
    (fun a b => decide (filter.Compare b a < 0) = false) filters
  exact List.Pairwise.imp (fun {a b} hab => (sortRel_iff a b).1 hab) h

theorem filter_orderedInsert_class (x a : filter) (l : List filter) :
    (List.orderedInsert (fun a b => decide (filter.Compare b a < 0) = false) a l).filter
        (fun y => decide (filter.Compare x y = 0)) =
      (a :: l).filter (fun y => decide (filter.Compare x y = 0)) := by
  rw [List.orderedInsert_eq_take_drop]
  by_cases hxa : filter.Compare x a = 0
  · have hnil : (List.takeWhile
        (fun b => decide ¬(decide (filter.Compare b a < 0) = false)) l).filter
        (fun y => decide (filter.Compare x y = 0)) = [] := by
      rw [List.filter_eq_nil_iff]
      intro b hb hxb
      have hlt := List.mem_takeWhile_imp hb
      simp only [decide_eq_false_iff_not, not_lt, not_le, decide_eq_true_eq] at hlt hxb
      have hbx : filter.Compare b x = 0 := by rw [Compare_swap x b, hxb]; rfl
      have hba : filter.Compare b a = 0 := by
        rw [Compare_eq_zero] at hbx hxa ⊢
        exact hbx.trans hxa
      omega
    rw [List.filter_append, hnil, List.nil_append]
    conv_rhs => rw [← List.takeWhile_append_dropWhile
      (fun b => decide ¬(decide (filter.Compare b a < 0) = false)) l]
    simp only [List.filter_cons, hxa, decide_True, if_true, List.filter_append, hnil,
      List.nil_append]
  · conv_rhs => rw [← List.takeWhile_append_dropWhile
      (fun b => decide ¬(decide (filter.Compare b a < 0) = false)) l]
    simp only [List.filter_cons, hxa, decide_False, List.filter_append]
    simp

theorem SliceStable_filters_stable (x : filter) (filters : List filter) :
    (SliceStable (fun a b => decide (filter.Compare a b < 0)) filters).filter
        (fun y => decide (filter.Compare x y = 0)) =
      filters.filter (fun y => decide (filter.Compare x y = 0)) := by
  induction filters with
  | nil => rfl
  | cons a l ih =>
    have h := filter_orderedInsert_class x a
      (SliceStable (fun a b => decide (filter.Compare a b < 0)) l)
    simp only [SliceStable, List.insertionSort] at h ih ⊢
    rw [h, List.filter_cons, List.filter_cons, ih]

/-- C12: when the file can be created and encoded, the sequence writeFiltersToFile
encodes is a permutation of the input, is non-decreasing under Compare, and for every
filter x the filters that compare equal to x appear in it in the same order as in the
input. -/
theorem writeFiltersToFile_sorted (fsys : Files) (filters : List filter) (file : String)
    (w : World) (hc : fsys.create file = .ok ()) (he : fsys.encode file = .ok ()) :
    ∃ ff : List filter,
      writeFiltersToFile fsys filters file w =
        (.ok (), { w with files := w.files ++ [(file, Encoded.filterfile ff)] }) ∧
      ff.Perm filters ∧
      ff.Pairwise (fun a b => filter.Compare a b ≤ 0) ∧
      ∀ x : filter, ff.filter (fun y => decide (filter.Compare x y = 0)) =
        filters.filter (fun y => decide (filter.Compare x y = 0)) := by
  refine ⟨SliceStable (fun a b => decide (filter.Compare a b < 0)) filters, ?_,
    SliceStable_filters_perm filters, SliceStable_filters_sorted filters,
    fun x => SliceStable_filters_stable x filters⟩
  simp [writeFiltersToFile, hc, he]

/-- An instance of C12: filters to "z", "a", "a" are written as the first "a", the
second "a", then "z". -/
theorem writeFiltersToFile_sorted_witness :
    (writeFiltersToFile sampleFiles [sampleFilterZ, sampleFilterA1, sampleFilterA2]
        "filters.toml" {}).2.files =
      [("filters.toml", Encoded.filterfile [sampleFilterA1, sampleFilterA2, sampleFilterZ])] ∧
    ∃ ff : List filter,
      writeFiltersToFile sampleFiles [sampleFilterZ, sampleFilterA1, sampleFilterA2]
          "filters.toml" {} =
        (.ok (), { ({} : World) with
          files := ({} : World).files ++ [("filters.toml", Encoded.filterfile ff)] }) ∧
      ff.Perm [sampleFilterZ, sampleFilterA1, sampleFilterA2] ∧
      ff.Pairwise (fun a b => filter.Compare a b ≤ 0) ∧
      ∀ x : filter, ff.filter (fun y => decide (filter.Compare x y = 0)) =
        [sampleFilterZ, sampleFilterA1, sampleFilterA2].filter
          (fun y => decide (filter.Compare x y = 0)) :=
  ⟨by decide,
   writeFiltersToFile_sorted sampleFiles [sampleFilterZ, sampleFilterA1, sampleFilterA2]
     "filters.toml" {} rfl rfl⟩

/-- C13, as the code has it: for a list of filters in which any two filters that
compare equal are the same filter, and every permutation of it, writeFiltersToFile
sorts the permuted list into the same sequence as the original list and so does the
same on both. -/
theorem writeFiltersToFile_deterministic (fsys : Files) (filters permuted : List filter)
    (file : String) (w : World) (hp : permuted.Perm filters)
    (hkey : ∀ a ∈ filters, ∀ b ∈ filters, filter.Compare a b = 0 → a = b) :
    SliceStable (fun a b => decide (filter.Compare a b < 0)) permuted =
      SliceStable (fun a b => decide (filter.Compare a b < 0)) filters ∧
    writeFiltersToFile fsys permuted file w = writeFiltersToFile fsys filters file w := by
  have hs : SliceStable (fun a b => decide (filter.Compare a b < 0)) permuted =
      SliceStable (fun a b => decide (filter.Compare a b < 0)) filters := by
    refine @List.Perm.eq_of_sorted filter (fun a b => filter.Compare a b ≤ 0) _ _ ?_ ?_ ?_ ?_
    · intro a b ha hb hab hba
      have ha' : a ∈ filters := hp.subset ((SliceStable_filters_perm permuted).subset ha)
      have hb' : b ∈ filters := (SliceStable_filters_perm filters).subset hb
      apply hkey a ha' b hb'
      have := Compare_swap a b
      omega
    · exact SliceStable_filters_sorted permuted
    · exact SliceStable_filters_sorted filters
    · exact (SliceStable_filters_perm permuted).trans
        (hp.trans (SliceStable_filters_perm filters).symm)
  refine ⟨hs, ?_⟩
  simp only [writeFiltersToFile, hs]

/-- An instance of C13 as amended: two listing orders of filters to "z" and "a". -/
theorem writeFiltersToFile_deterministic_witness :
    SliceStable (fun a b => decide (filter.Compare a b < 0)) [sampleFilterA1, sampleFilterZ] =
      SliceStable (fun a b => decide (filter.Compare a b < 0)) [sampleFilterZ, sampleFilterA1] ∧
    writeFiltersToFile sampleFiles [sampleFilterA1, sampleFilterZ] "filters.toml" {} =
      writeFiltersToFile sampleFiles [sampleFilterZ, sampleFilterA1] "filters.toml" {} :=
  writeFiltersToFile_deterministic sampleFiles [sampleFilterZ, sampleFilterA1]
    [sampleFilterA1, sampleFilterZ] "filters.toml" {} (List.Perm.swap _ _ _) (by decide)

/-- C13 as stated fails: two valid filters with the same five text fields and
different actions compare equal, so each listing order is written as it is and the
two exports differ. -/
theorem writeFiltersToFile_depends_on_listing_order :
    sampleFilterA1.IsValid = true ∧ sampleFilterA2.IsValid = true ∧
    [sampleFilterA2, sampleFilterA1].Perm [sampleFilterA1, sampleFilterA2] ∧
    (writeFiltersToFile sampleFiles [sampleFilterA1, sampleFilterA2] "filters.toml" {}).2.files =
      [("filters.toml", Encoded.filterfile [sampleFilterA1, sampleFilterA2])] ∧
    (writeFiltersToFile sampleFiles [sampleFilterA2, sampleFilterA1] "filters.toml" {}).2.files =
      [("filters.toml", Encoded.filterfile [sampleFilterA2, sampleFilterA1])] :=
  ⟨by decide, by decide, List.Perm.swap _ _ _, by decide, by decide⟩

/-! ### Rebuilding local filters from remote ones -/

theorem removeLabelIds_foldl (ids : List String) :
    ∀ f : filter,
      ids.foldl (fun (f : filter) labelID =>
        if labelID = "UNREAD" then { f with Action := { f.Action with MarkRead := true } }
        else if labelID = "INBOX" then { f with Action := { f.Action with Archive := true } }
        else f) f =
      { f with Action := { f.Action with
          Archive := f.Action.Archive || decide ("INBOX" ∈ ids)
          MarkRead := f.Action.MarkRead || decide ("UNREAD" ∈ ids) } } := by
  induction ids with
  | nil => intro f; simp
  | cons id rest ih =>
    intro f
    rw [List.foldl_cons, ih]
    by_cases h1 : id = "UNREAD"
    · subst h1
      simp
    · by_cases h2 : id = "INBOX"
      · subst h2
        simp
      · have h1' : ¬ "UNREAD" = id := fun h => h1 h.symm
        have h2' : ¬ "INBOX" = id := fun h => h2 h.symm
        simp [h1, h2, h1', h2']

theorem importFilter_multiple (labels : labelMap) (gf : gmailFilter) (c : gmailFilterCriteria)
    (a : gmailFilterAction) (hc : gf.Criteria = some c) (ha : gf.Action = some a)
    (hlen : a.AddLabelIds.length > 1) :
    importFilter labels gf = .error (Err.multipleAddLabelIds a.AddLabelIds) := by
  simp [importFilter, hc, ha, hlen]

theorem importFilter_none (labels : labelMap) (gf : gmailFilter) (c : gmailFilterCriteria)
    (a : gmailFilterAction) (hc : gf.Criteria = some c) (ha : gf.Action = some a)
    (hadd : a.AddLabelIds = []) :
    importFilter labels gf =
      if (imported c "" false a.RemoveLabelIds).IsValid = false then
        .error (Err.importedFilterInvalid (imported c "" false a.RemoveLabelIds))
      else .ok (imported c "" false a.RemoveLabelIds) := by
  simp [importFilter, hc, ha, hadd, removeLabelIds_foldl, imported]

theorem importFilter_trash (labels : labelMap) (gf : gmailFilter) (c : gmailFilterCriteria)
    (a : gmailFilterAction) (hc : gf.Criteria = some c) (ha : gf.Action = some a)
    (hadd : a.AddLabelIds = ["TRASH"]) :
    importFilter labels gf =
      if (imported c "" true a.RemoveLabelIds).IsValid = false then
        .error (Err.importedFilterInvalid (imported c "" true a.RemoveLabelIds))
      else .ok (imported c "" true a.RemoveLabelIds) := by
  simp [importFilter, hc, ha, hadd, removeLabelIds_foldl, imported]

theorem importFilter_label (labels : labelMap) (gf : gmailFilter) (c : gmailFilterCriteria)
    (a : gmailFilterAction) (id : String) (p : Nat) (hc : gf.Criteria = some c)
    (ha : gf.Action = some a) (hadd : a.AddLabelIds = [id]) (hid : id ≠ "TRASH")
    (hget : labels.GetByID id = some p) :
    importFilter labels gf =
      if (imported c (labels.deref p).Name false a.RemoveLabelIds).IsValid = false then
        .error (Err.importedFilterInvalid
          (imported c (labels.deref p).Name false a.RemoveLabelIds))
      else .ok (imported c (labels.deref p).Name false a.RemoveLabelIds) := by
  simp [importFilter, hc, ha, hadd, hid, hget, removeLabelIds_foldl, imported]

theorem importFilter_unknown (labels : labelMap) (gf : gmailFilter) (c : gmailFilterCriteria)
    (a : gmailFilterAction) (id : String) (hc : gf.Criteria = some c)
    (ha : gf.Action = some a) (hadd : a.AddLabelIds = [id]) (hid : id ≠ "TRASH")
    (hget : labels.GetByID id = none) :
    importFilter labels gf = .error (Err.unknownLabelID id) := by
  simp [importFilter, hc, ha, hadd, hid, hget]

theorem importFilter_nil_pointer (labels : labelMap) (gf : gmailFilter)
    (h : gf.Criteria = none ∨ gf.Action = none) :
    importFilter labels gf = .error Err.nilPointer := by
  cases hc : gf.Criteria with
  | none => simp [importFilter, hc]
  | some c =>
    rcases h with h | h
    · rw [hc] at h; cases h
    · simp [importFilter, hc, h]

theorem importLoop_ok (labels : labelMap) (gfs : List gmailFilter) :
    ∀ (acc fs : List filter), importLoop labels gfs acc = .ok fs →
      ∃ fs', fs = acc ++ fs' ∧
        List.Forall₂ (fun gf f => importFilter labels gf = .ok f) gfs fs' := by
  induction gfs with
  | nil =>
    intro acc fs h
    simp only [importLoop, Except.ok.injEq] at h
    exact ⟨[], by simp [h], List.Forall₂.nil⟩
  | cons gf rest ih =>
    intro acc fs h
    cases hi : importFilter labels gf with
    | error e => simp [importLoop, hi] at h
    | ok f =>
      simp only [importLoop, hi] at h
      obtain ⟨fs', hfs, hall⟩ := ih (acc ++ [f]) fs h
      exact ⟨f :: fs', by simp [hfs], List.Forall₂.cons hi hall⟩

theorem importLoop_error (labels : labelMap) (gfs : List gmailFilter) :
    ∀ (acc : List filter), (∃ gf ∈ gfs, ∃ e, importFilter labels gf = .error e) →
      ∃ e, importLoop labels gfs acc = .error e := by
  induction gfs with
  | nil => intro acc h; simp at h
  | cons gf rest ih =>
    intro acc h
    cases hi : importFilter labels gf with
    | error e => exact ⟨e, by simp [importLoop, hi]⟩
    | ok f =>
      obtain ⟨g, hg, e, he⟩ := h
      rcases List.mem_cons.1 hg with h' | h'
      · subst h'; rw [hi] at he; cases he
      · obtain ⟨e', he'⟩ := ih (acc ++ [f]) ⟨g, h', e, he⟩
        exact ⟨e', by simp [importLoop, hi, he']⟩

theorem importFilter_ok_cases (labels : labelMap) (gf : gmailFilter) (f : filter)
    (h : importFilter labels gf = .ok f) :
    ∃ c a, gf.Criteria = some c ∧ gf.Action = some a ∧ f.IsValid = true ∧
      ((a.AddLabelIds = [] ∧ f = imported c "" false a.RemoveLabelIds) ∨
       (a.AddLabelIds = ["TRASH"] ∧ f = imported c "" true a.RemoveLabelIds) ∨
       (∃ id p, a.AddLabelIds = [id] ∧ id ≠ "TRASH" ∧ labels.GetByID id = some p ∧
          f = imported c (labels.deref p).Name false a.RemoveLabelIds)) := by
  have finish : ∀ g : filter,
      (if g.IsValid = false then (Except.error (Err.importedFilterInvalid g) : Except Err filter)
        else .ok g) = .ok f → f.IsValid = true ∧ f = g := by
    intro g hg
    cases hv : g.IsValid with
    | false => simp [hv] at hg
    | true =>
      simp only [hv, Bool.true_eq_false, if_false, Except.ok.injEq] at hg
      subst hg
      exact ⟨hv, rfl⟩
  cases hc : gf.Criteria with
  | none => rw [importFilter_nil_pointer labels gf (Or.inl hc)] at h; cases h
  | some c =>
    cases ha : gf.Action with
    | none => rw [importFilter_nil_pointer labels gf (Or.inr ha)] at h; cases h
    | some a =>
      refine ⟨c, a, rfl, rfl, ?_⟩
      cases hadd : a.AddLabelIds with
      | nil =>
        rw [importFilter_none labels gf c a hc ha hadd] at h
        obtain ⟨hv, hf⟩ := finish _ h
        exact ⟨hv, Or.inl ⟨rfl, hf⟩⟩
      | cons id rest =>
        cases rest with
        | cons id2 rest2 =>
          rw [importFilter_multiple labels gf c a hc ha (by simp [hadd])] at h
          cases h
        | nil =>
          by_cases hid : id = "TRASH"
          · subst hid
            rw [importFilter_trash labels gf c a hc ha hadd] at h
            obtain ⟨hv, hf⟩ := finish _ h
            exact ⟨hv, Or.inr (Or.inl ⟨rfl, hf⟩)⟩
          · cases hget : labels.GetByID id with
            | none =>
              rw [importFilter_unknown labels gf c a id hc ha hadd hid hget] at h
              cases h
            | some p =>
              rw [importFilter_label labels gf c a id p hc ha hadd hid hget] at h
              obtain ⟨hv, hf⟩ := finish _ h
              exact ⟨hv, Or.inr (Or.inr ⟨id, p, rfl, hid, hget, hf⟩)⟩

theorem importFilter_unknown_marker (labels : labelMap) (gf : gmailFilter)
    (a : gmailFilterAction) (id : String) (ha : gf.Action = some a)
    (hmem : id ∈ a.AddLabelIds) (hid : id ≠ "TRASH") (hget : labels.GetByID id = none) :
    ∃ e, importFilter labels gf = .error e := by
  cases hi : importFilter labels gf with
  | error e => exact ⟨e, rfl⟩
  | ok f =>
    exfalso
    obtain ⟨c, a', -, ha', -, hcases⟩ := importFilter_ok_cases labels gf f hi
    rw [ha] at ha'
    cases ha'
    rcases hcases with ⟨h, -⟩ | ⟨h, -⟩ | ⟨id', p, h, -, hget', -⟩
    · rw [h] at hmem; simp at hmem
    · rw [h] at hmem; simp at hmem; exact hid hmem
    · rw [h] at hmem
      simp only [List.mem_singleton] at hmem
      subst hmem
      rw [hget] at hget'
      cases hget'

/-- C14: a remote filter that getExistingFilters accepts has criteria and an action,
and the local filter rebuilt from it has the nine criteria fields of the remote
criteria, Delete exactly when "TRASH" is among AddLabelIds, Archive exactly when
"INBOX" and MarkRead exactly when "UNREAD" is among RemoveLabelIds, and as Label the
Name of the directory label found by GetByID for the add-label marker that is not
"TRASH" (the empty string when there is no such marker). A remote filter with an
add-label marker other than "TRASH" that GetByID does not find is refused, and so is
the whole listing that holds it; an accepted listing is rebuilt filter by filter, in
order. -/
theorem getExistingFilters_reconstruction (api : Remote) (w : World) :
    (∀ (gf : gmailFilter) (f : filter), importFilter w.labels gf = .ok f →
      ∃ c a, gf.Criteria = some c ∧ gf.Action = some a ∧
        f.Criteria.ExcludeChats = c.ExcludeChats ∧ f.Criteria.From = c.From ∧
        f.Criteria.HasAttachment = c.HasAttachment ∧
        f.Criteria.NegatedQuery = c.NegatedQuery ∧ f.Criteria.Query = c.Query ∧
        f.Criteria.Size = c.Size ∧ f.Criteria.SizeComparison = c.SizeComparison ∧
        f.Criteria.Subject = c.Subject ∧ f.Criteria.To = c.To ∧
        (f.Action.Delete = true ↔ "TRASH" ∈ a.AddLabelIds) ∧
        (f.Action.Archive = true ↔ "INBOX" ∈ a.RemoveLabelIds) ∧
        (f.Action.MarkRead = true ↔ "UNREAD" ∈ a.RemoveLabelIds) ∧
        (∀ id ∈ a.AddLabelIds, id ≠ "TRASH" →
          ∃ p, w.labels.GetByID id = some p ∧ f.Action.Label = (w.labels.deref p).Name) ∧
        ((∀ id ∈ a.AddLabelIds, id = "TRASH") → f.Action.Label = "")) ∧
    (∀ (gf : gmailFilter) (a : gmailFilterAction) (id : String), gf.Action = some a →
      id ∈ a.AddLabelIds → id ≠ "TRASH" → w.labels.GetByID id = none →
      ∃ e, importFilter w.labels gf = .error e) ∧
    (∀ gfs : List gmailFilter, api.filtersList w.trace = .ok gfs →
      (∀ fs, (getExistingFilters api w).1 = .ok fs →
        List.Forall₂ (fun gf f => importFilter w.labels gf = .ok f) gfs fs) ∧
      (∀ gf ∈ gfs, ∀ (a : gmailFilterAction) (id : String), gf.Action = some a →
        id ∈ a.AddLabelIds → id ≠ "TRASH" → w.labels.GetByID id = none →
        ∃ e, (getExistingFilters api w).1 = .error e)) := by
  refine ⟨?_, ?_, ?_⟩
  · intro gf f h
    obtain ⟨c, a, hc, ha, -, hcases⟩ := importFilter_ok_cases w.labels gf f h
    refine ⟨c, a, hc, ha, ?_⟩
    rcases hcases with ⟨hadd, hf⟩ | ⟨hadd, hf⟩ | ⟨id, p, hadd, hid, hget, hf⟩
    · subst hf
      simp [imported, hadd]
    · subst hf
      simp [imported, hadd]
    · subst hf
      have hid' : ¬ "TRASH" = id := fun h' => hid h'.symm
      simp [imported, hadd, hid, hid', hget]
  · intro gf a id ha hmem hid hget
    exact importFilter_unknown_marker w.labels gf a id ha hmem hid hget
  · intro gfs hlist
    constructor
    · intro fs hfs
      simp only [getExistingFilters, hlist] at hfs
      obtain ⟨fs', hfs', hall⟩ := importLoop_ok w.labels gfs [] fs hfs
      simp only [List.nil_append] at hfs'
      subst hfs'
      exact hall
    · intro gf hgf a id ha hmem hid hget
      obtain ⟨e, he⟩ := importFilter_unknown_marker w.labels gf a id ha hmem hid hget
      obtain ⟨e', he'⟩ := importLoop_error w.labels gfs [] ⟨gf, hgf, e, he⟩
      exact ⟨e', by simp [getExistingFilters, hlist, he']⟩

/-- An instance of C14: the sample remote filter against the sample world is rebuilt
as a filter that labels with "work" and archives; listed by the remote side, it is
the one filter of the export. -/
theorem getExistingFilters_reconstruction_witness :
    importFilter sampleWorld.labels sampleRemoteFilter =
      .ok { Criteria := { From := "a@b.c" }, Action := { Label := "work", Archive := true } } ∧
    List.Forall₂ (fun gf f => importFilter sampleWorld.labels gf = .ok f)
      [sampleRemoteFilter]
      [{ Criteria := { From := "a@b.c" }, Action := { Label := "work", Archive := true } }] :=
  ⟨by decide,
   ((getExistingFilters_reconstruction sampleRemoteListing sampleWorld).2.2
      [sampleRemoteFilter] rfl).1 _ (by decide)⟩

/-- C15, as the code has it: a remote filter is rejected as having multiple add-label
markers exactly when its AddLabelIds holds more than one marker, "TRASH" counted like
any other; so a remote filter whose AddLabelIds holds one label id together with
"TRASH" is rejected. -/
theorem getExistingFilters_multiple_markers (labels : labelMap) (gf : gmailFilter)
    (c : gmailFilterCriteria) (a : gmailFilterAction) (hc : gf.Criteria = some c)
    (ha : gf.Action = some a) :
    (importFilter labels gf = .error (Err.multipleAddLabelIds a.AddLabelIds) ↔
      a.AddLabelIds.length > 1) ∧
    (∀ id : String, a.AddLabelIds = [id, "TRASH"] →
      importFilter labels gf = .error (Err.multipleAddLabelIds [id, "TRASH"])) := by
  constructor
  · constructor
    · intro h
      cases hadd : a.AddLabelIds with
      | nil =>
        rw [importFilter_none labels gf c a hc ha hadd] at h
        split at h <;> cases h
      | cons id rest =>
        cases rest with
        | cons id2 rest2 => simp
        | nil =>
          exfalso
          by_cases hid : id = "TRASH"
          · subst hid
            rw [importFilter_trash labels gf c a hc ha hadd] at h
            split at h <;> cases h
          · cases hget : labels.GetByID id with
            | none =>
              rw [importFilter_unknown labels gf c a id hc ha hadd hid hget] at h
              cases h
            | some p =>
              rw [importFilter_label labels gf c a id p hc ha hadd hid hget] at h
              split at h <;> cases h
    · intro h
      exact importFilter_multiple labels gf c a hc ha h
  · intro id hadd
    rw [importFilter_multiple labels gf c a hc ha (by simp [hadd]), hadd]

/-- An instance of C15 as amended: the remote filter that adds a label and "TRASH". -/
theorem getExistingFilters_multiple_markers_witness :
    (importFilter sampleWorld.labels sampleRemoteFilterLabelTrash =
        .error (Err.multipleAddLabelIds ["Label_1", "TRASH"]) ↔
      (["Label_1", "TRASH"] : List String).length > 1) ∧
    (∀ id : String, ["Label_1", "TRASH"] = [id, "TRASH"] →
      importFilter sampleWorld.labels sampleRemoteFilterLabelTrash =
        .error (Err.multipleAddLabelIds [id, "TRASH"])) :=
  getExistingFilters_multiple_markers sampleWorld.labels sampleRemoteFilterLabelTrash
    { From := "a@b.c" } { AddLabelIds := ["Label_1", "TRASH"] } rfl rfl

/-- C15 as stated fails: a remote filter whose AddLabelIds holds the id of a label of
the directory together with "TRASH" has one marker other than "TRASH", and is
rejected as having multiple add-label markers. -/
theorem getExistingFilters_rejects_label_with_trash :
    sampleWorld.labels.GetByID "Label_1" = some 0 ∧
    ((["Label_1", "TRASH"] : List String).filter (fun id => decide (id ≠ "TRASH"))).length = 1 ∧
    importFilter sampleWorld.labels sampleRemoteFilterLabelTrash =
      .error (Err.multipleAddLabelIds ["Label_1", "TRASH"]) := by
  decide

/-- C16, as the code has it: for a valid local filter with an empty Forward that does
not set both Label and Delete, and a directory in which GetByName finds the label
(when set) under exactly that name, with an id other than "TRASH" under which GetByID
finds the same label, toGmailFilters returns one remote filter without touching the
world, and rebuilding that remote filter yields the local filter again. -/
theorem importFilter_toGmailFilters (lower : String → String) (api : Remote) (f : filter)
    (w : World) (hv : f.IsValid = true) (hfwd : f.Action.Forward = "")
    (hld : ¬ (f.Action.Label ≠ "" ∧ f.Action.Delete = true))
    (hdir : f.Action.Label ≠ "" →
      ∃ p, w.labels.GetByName lower f.Action.Label = some p ∧
        (w.labels.deref p).Name = f.Action.Label ∧ (w.labels.deref p).Id ≠ "TRASH" ∧
        w.labels.GetByID (w.labels.deref p).Id = some p) :
    ∃ gf, toGmailFilters lower api f w = (.ok [gf], w) ∧ importFilter w.labels gf = .ok f := by
  have hrebuilt : ∀ (name : String) (del : Bool), name = f.Action.Label →
      del = f.Action.Delete →
      imported
        { ExcludeChats := f.Criteria.ExcludeChats, From := f.Criteria.From,
          HasAttachment := f.Criteria.HasAttachment, NegatedQuery := f.Criteria.NegatedQuery,
          Query := f.Criteria.Query, Size := f.Criteria.Size,
          SizeComparison := f.Criteria.SizeComparison, Subject := f.Criteria.Subject,
          To := f.Criteria.To } name del
        ((if f.Action.Archive then ["INBOX"] else []) ++
          (if f.Action.MarkRead then ["UNREAD"] else [])) = f := by
    intro name del hname hdel
    obtain ⟨c, ⟨lab, fwd, ar, mr, dl⟩⟩ := f
    simp only at hfwd hname hdel
    subst hfwd hname hdel
    cases ar <;> cases mr <;> simp [imported]
  by_cases hl : f.Action.Label = ""
  · refine ⟨translated f [], toGmailFilters_no_label lower api f w hv hl, ?_⟩
    cases hd : f.Action.Delete with
    | false =>
      rw [importFilter_none w.labels (translated f []) _ _ rfl rfl (by simp [hd])]
      rw [hrebuilt "" false hl.symm hd.symm]
      simp [hv]
    | true =>
      rw [importFilter_trash w.labels (translated f []) _ _ rfl rfl (by simp [hd])]
      rw [hrebuilt "" true hl.symm hd.symm]
      simp [hv]
  · obtain ⟨p, hname, hexact, hid, hget⟩ := hdir hl
    have hd : f.Action.Delete = false := by
      cases hd : f.Action.Delete with
      | false => rfl
      | true => exact absurd ⟨hl, hd⟩ hld
    have hcr : createLabelIfDoesNotExist lower api f.Action.Label w =
        (.ok (w.labels.deref p).Id, w) := by
      simp [createLabelIfDoesNotExist, hname]
    refine ⟨translated f [(w.labels.deref p).Id],
      toGmailFilters_resolved lower api f w w _ hv hl hcr, ?_⟩
    rw [importFilter_label w.labels (translated f [(w.labels.deref p).Id]) _ _
      (w.labels.deref p).Id p rfl rfl (by simp [hd]) hid hget]
    rw [hrebuilt _ false hexact hd.symm]
    simp [hv]

/-- An instance of C16 as amended: the filter that labels with "work" and archives,
in the sample world. -/
theorem importFilter_toGmailFilters_witness :
    ∃ gf, toGmailFilters asciiLower sampleRemote sampleFilterLabelArchive sampleWorld =
        (.ok [gf], sampleWorld) ∧
      importFilter sampleWorld.labels gf = .ok sampleFilterLabelArchive :=
  importFilter_toGmailFilters asciiLower sampleRemote sampleFilterLabelArchive sampleWorld
    (by decide) (by decide) (by decide) (fun _ => ⟨0, by decide, by decide, by decide, by decide⟩)

/-- C16 as stated fails: a valid filter that sets Label and Delete, in a directory
that holds the label under exactly that name. toGmailFilters gives it the label's id
and "TRASH" as AddLabelIds, and rebuilding that remote filter is refused. -/
theorem importFilter_toGmailFilters_label_delete :
    sampleFilterLabelDelete.IsValid = true ∧
    sampleWorld.labels.GetByName asciiLower sampleFilterLabelDelete.Action.Label = some 0 ∧
    (sampleWorld.labels.deref 0).Name = sampleFilterLabelDelete.Action.Label ∧
    toGmailFilters asciiLower sampleRemote sampleFilterLabelDelete sampleWorld =
      (.ok [translated sampleFilterLabelDelete ["Label_1"]], sampleWorld) ∧
    importFilter sampleWorld.labels (translated sampleFilterLabelDelete ["Label_1"]) =
      .error (Err.multipleAddLabelIds ["Label_1", "TRASH"]) := by
  decide

/-! ### Looking labels up after `Add` -/

/-- C17: after m.Add(l), GetByID(l.Id) and GetByName(n), for every n whose
lower-casing is that of l.Name, return the address of one new object whose value is
l; GetByID on every other id and GetByName on every name with another lower-casing
return the address they returned before (none stays none), and every object that was
in the pool is unchanged. -/
theorem Add_lookups (lower : String → String) (m : labelMap) (l : label) :
    (m.Add lower l).GetByID l.Id = some m.pool.length ∧
    (m.Add lower l).deref m.pool.length = l ∧
    (∀ n : String, lower n = lower l.Name →
      (m.Add lower l).GetByName lower n = some m.pool.length) ∧
    (∀ id : String, id ≠ l.Id → (m.Add lower l).GetByID id = m.GetByID id) ∧
    (∀ n : String, lower n ≠ lower l.Name →
      (m.Add lower l).GetByName lower n = m.GetByName lower n) ∧
    (∀ p : Nat, p < m.pool.length → (m.Add lower l).deref p = m.deref p) :=
  ⟨GetByID_Add lower m l, deref_Add_new lower m l,
    fun n h => GetByName_Add lower m l n h,
    fun id h => GetByID_Add_other lower m l id h,
    fun n h => GetByName_Add_other lower m l n h,
    fun p h => deref_Add_old lower m l p h⟩

/-- An instance of C17: adding the label "Work2" with a new id to the sample
directory; it is found under "WORK2", and "work" is found as before. -/
theorem Add_lookups_witness :
    (sampleWorld.labels.Add asciiLower { sampleLabelRenamed with Id := "Label_2" }).GetByName
        asciiLower "WORK2" = some 1 ∧
    (sampleWorld.labels.Add asciiLower { sampleLabelRenamed with Id := "Label_2" }).GetByID
        "Label_1" = sampleWorld.labels.GetByID "Label_1" ∧
    (sampleWorld.labels.Add asciiLower { sampleLabelRenamed with Id := "Label_2" }).GetByName
        asciiLower "Work" = sampleWorld.labels.GetByName asciiLower "Work" ∧
    (sampleWorld.labels.Add asciiLower { sampleLabelRenamed with Id := "Label_2" }).deref 0 =
      sampleWorld.labels.deref 0 :=
  have h := Add_lookups asciiLower sampleWorld.labels { sampleLabelRenamed with Id := "Label_2" }
  ⟨h.2.2.1 "WORK2" (by decide), h.2.2.2.1 "Label_1" (by decide),
    h.2.2.2.2.1 "Work" (by decide), h.2.2.2.2.2 0 (by decide)⟩

/-! ### The two spellings of the label-list visibility -/

/-- C20: for a lower-casing that lower-cases the remote values as ASCII lower-casing
does, the request of UpdateLabel carries "labelHide", "labelShow",
"labelShowIfUnread" for the local values "hide", "show", "showifunread" and no value
for "", and labelFromAPI applied to a remote label that carries the value of the
request yields the local value again. -/
theorem LabelListVisibility_roundtrip (lower : String → String)
    (hlow : ∀ s ∈ ["", "labelHide", "labelShow", "labelShowIfUnread"], lower s = asciiLower s)
    (l : label) :
    (l.LabelListVisibility = "hide" →
      (updateLabelRequest l).LabelListVisibility = "labelHide") ∧
    (l.LabelListVisibility = "show" →
      (updateLabelRequest l).LabelListVisibility = "labelShow") ∧
    (l.LabelListVisibility = "showifunread" →
      (updateLabelRequest l).LabelListVisibility = "labelShowIfUnread") ∧
    (l.LabelListVisibility = "" → (updateLabelRequest l).LabelListVisibility = "") ∧
    (l.LabelListVisibility ∈ ["", "hide", "show", "showifunread"] →
      ∀ lbl : gmailLabel,
        lbl.LabelListVisibility = (updateLabelRequest l).LabelListVisibility →
        (labelFromAPI lower lbl).LabelListVisibility = l.LabelListVisibility) := by
  have hreq : ∀ v : String, l.LabelListVisibility = v →
      v ∈ ["", "hide", "show", "showifunread"] →
      (updateLabelRequest l).LabelListVisibility =
        (if v = "hide" then "labelHide" else if v = "show" then "labelShow"
          else if v = "showifunread" then "labelShowIfUnread" else "") := by
    intro v hv hmem
    unfold updateLabelRequest
    rw [hv]
    simp only [List.mem_cons, List.mem_singleton, List.mem_nil_iff, or_false] at hmem
    rcases hmem with h | h | h | h <;> subst h <;>
      by_cases hcol : l.BackgroundColor ≠ "" ∨ l.TextColor ≠ "" <;> simp [hcol]
  have hfrom : ∀ lbl : gmailLabel, (labelFromAPI lower lbl).LabelListVisibility =
      TrimPrefix (lower lbl.LabelListVisibility) "label" := by
    intro lbl
    unfold labelFromAPI
    cases lbl.Color <;> rfl
  refine ⟨?_, ?_, ?_, ?_, ?_⟩
  · intro h; rw [hreq _ h (by simp)]; rfl
  · intro h; rw [hreq _ h (by simp)]; rfl
  · intro h; rw [hreq _ h (by simp)]; rfl
  · intro h; rw [hreq _ h (by simp)]; rfl
  · intro hmem lbl hlbl
    rw [hfrom, hlbl, hreq _ rfl hmem]
    simp only [List.mem_cons, List.mem_singleton, List.mem_nil_iff, or_false] at hmem
    rcases hmem with h | h | h | h <;> rw [h]
    · rw [show (if ("" : String) = "hide" then "labelHide" else if ("" : String) = "show"
        then "labelShow" else if ("" : String) = "showifunread" then "labelShowIfUnread"
        else "") = "" from by decide, hlow "" (by simp)]
      decide
    · rw [show (if ("hide" : String) = "hide" then "labelHide" else if ("hide" : String) = "show"
        then "labelShow" else if ("hide" : String) = "showifunread" then "labelShowIfUnread"
        else "") = "labelHide" from by decide, hlow "labelHide" (by simp)]
      decide
    · rw [show (if ("show" : String) = "hide" then "labelHide" else if ("show" : String) = "show"
        then "labelShow" else if ("show" : String) = "showifunread" then "labelShowIfUnread"
        else "") = "labelShow" from by decide, hlow "labelShow" (by simp)]
      decide
    · rw [show (if ("showifunread" : String) = "hide" then "labelHide"
        else if ("showifunread" : String) = "show" then "labelShow"
        else if ("showifunread" : String) = "showifunread" then "labelShowIfUnread"
        else "") = "labelShowIfUnread" from by decide, hlow "labelShowIfUnread" (by simp)]
      decide

/-- An instance of C20: the local value "showifunread" with ASCII lower-casing. -/
theorem LabelListVisibility_roundtrip_witness :
    (updateLabelRequest
      { sampleLabel with LabelListVisibility := "showifunread" }).LabelListVisibility =
        "labelShowIfUnread" ∧
    (labelFromAPI asciiLower sampleRemoteLabel).LabelListVisibility = "showifunread" :=
  have h := LabelListVisibility_roundtrip asciiLower (fun _ _ => rfl)
    { sampleLabel with LabelListVisibility := "showifunread" }
  ⟨h.2.2.1 rfl, h.2.2.2.2 (by decide) sampleRemoteLabel (by decide)⟩

/-! ### The two indices of the directory -/

theorem indexed_empty (lower : String → String) : labelMap.indexed lower {} := by
  refine ⟨?_, ?_, ?_⟩
  · intro id p h; simp [labelMap.GetByID, mapGet] at h
  · intro key p h; simp [mapGet] at h
  · intro p h; simp at h

theorem indexed_Add (lower : String → String) (m : labelMap) (l : label)
    (h : labelMap.indexed lower m) (hid : m.GetByID l.Id = none)
    (hname : m.GetByName lower l.Name = none) : labelMap.indexed lower (m.Add lower l) := by
  obtain ⟨k1, k2, hc⟩ := h
  have hlen : (m.Add lower l).pool.length = m.pool.length + 1 := by simp [labelMap.Add]
  have hByID : ∀ id p, p < m.pool.length →
      ((m.Add lower l).GetByID id = some p ↔ m.GetByID id = some p) := by
    intro id p hp
    by_cases hi : id = l.Id
    · subst hi
      rw [GetByID_Add, hid]
      simp only [Option.some.injEq, reduceCtorEq, iff_false]
      omega
    · rw [GetByID_Add_other lower m l id hi]
  have hByName : ∀ key p, p < m.pool.length →
      (mapGet (m.Add lower l).byName key = some p ↔ mapGet m.byName key = some p) := by
    intro key p hp
    by_cases hk : key = lower l.Name
    · subst hk
      have hnone : mapGet m.byName (lower l.Name) = none := hname
      simp only [labelMap.Add, mapGet_mapSet_same, hnone, Option.some.injEq, reduceCtorEq,
        iff_false]
      omega
    · simp only [labelMap.Add, mapGet_mapSet_other _ _ _ _ hk]
  refine ⟨?_, ?_, ?_⟩
  · intro id p hget
    by_cases hi : id = l.Id
    · subst hi
      rw [GetByID_Add] at hget
      cases hget
      exact ⟨by omega, by rw [deref_Add_new]⟩
    · rw [GetByID_Add_other lower m l id hi] at hget
      obtain ⟨hp, hpid⟩ := k1 id p hget
      exact ⟨by omega, by rw [deref_Add_old lower m l p hp]; exact hpid⟩
  · intro key p hget
    by_cases hk : key = lower l.Name
    · subst hk
      simp only [labelMap.Add, mapGet_mapSet_same, Option.some.injEq] at hget
      subst hget
      exact ⟨by omega, by rw [deref_Add_new]⟩
    · simp only [labelMap.Add, mapGet_mapSet_other _ _ _ _ hk] at hget
      obtain ⟨hp, hpn⟩ := k2 key p hget
      exact ⟨by omega, by rw [deref_Add_old lower m l p hp]; exact hpn⟩
  · intro p hp
    rw [hlen] at hp
    by_cases hnew : p = m.pool.length
    · subst hnew
      rw [deref_Add_new]
      simp [GetByID_Add, GetByName_Add]
    · have hp' : p < m.pool.length := by omega
      rw [deref_Add_old lower m l p hp']
      have h1 := hByID (m.deref p).Id p hp'
      have h2 := hByName (lower (m.deref p).Name) p hp'
      simp only [labelMap.GetByName] at hc ⊢
      rw [h1, h2]
      exact hc p hp'

theorem indexed_of_same_keys (lower : String → String) (m m' : labelMap)
    (h : labelMap.indexed lower m) (hID : m'.byID = m.byID) (hName : m'.byName = m.byName)
    (hlen : m'.pool.length = m.pool.length)
    (hobj : ∀ q, (m'.deref q).Id = (m.deref q).Id ∧
      lower (m'.deref q).Name = lower (m.deref q).Name) :
    labelMap.indexed lower m' := by
  obtain ⟨k1, k2, hc⟩ := h
  refine ⟨?_, ?_, ?_⟩
  · intro id p hget
    simp only [labelMap.GetByID, hID] at hget
    obtain ⟨hp, hpid⟩ := k1 id p hget
    exact ⟨by omega, by rw [(hobj p).1]; exact hpid⟩
  · intro key p hget
    rw [hName] at hget
    obtain ⟨hp, hpn⟩ := k2 key p hget
    exact ⟨by omega, by rw [(hobj p).2]; exact hpn⟩
  · intro p hp
    rw [hlen] at hp
    have := hc p hp
    simp only [labelMap.GetByID, labelMap.GetByName, hID, hName, (hobj p).1, (hobj p).2]
      at this ⊢
    exact this

theorem store_keeps_keys (lower : String → String) (m : labelMap) (p : Nat) (l : label)
    (hp : p < m.pool.length) (hid : (m.deref p).Id = l.Id)
    (hname : lower l.Name = lower (m.deref p).Name) :
    ∀ q, ((m.store p l).deref q).Id = (m.deref q).Id ∧
      lower ((m.store p l).deref q).Name = lower (m.deref q).Name := by
  intro q
  by_cases hq : p = q
  · subst hq
    rw [deref_store_same _ _ _ hp]
    exact ⟨hid.symm, hname⟩
  · rw [deref_store_other _ _ _ _ hq]
    exact ⟨rfl, rfl⟩

theorem updateLabelsLoop_keeps_keys (lower : String → String) (api : Remote)
    (ls : List label) :
    ∀ (w : World) (n : Nat),
      (∀ id p, w.labels.GetByID id = some p →
        p < w.labels.pool.length ∧ (w.labels.deref p).Id = id) →
      (∀ l ∈ ls, ∀ p, w.labels.GetByID l.Id = some p →
        lower l.Name = lower (w.labels.deref p).Name) →
      (updateLabelsLoop api ls w n).2.1.labels.byID = w.labels.byID ∧
      (updateLabelsLoop api ls w n).2.1.labels.byName = w.labels.byName ∧
      (updateLabelsLoop api ls w n).2.1.labels.pool.length = w.labels.pool.length ∧
      ∀ q, ((updateLabelsLoop api ls w n).2.1.labels.deref q).Id = (w.labels.deref q).Id ∧
        lower ((updateLabelsLoop api ls w n).2.1.labels.deref q).Name =
          lower (w.labels.deref q).Name := by
  induction ls with
  | nil => intro w n _ _; simp [updateLabelsLoop]
  | cons l rest ih =>
    intro w n k1 hnames
    have hrest : ∀ l' ∈ rest, ∀ p, w.labels.GetByID l'.Id = some p →
        lower l'.Name = lower (w.labels.deref p).Name :=
      fun l' hl' => hnames l' (List.mem_cons_of_mem _ hl')
    cases hget : w.labels.GetByID l.Id with
    | none =>
      rw [updateLabelsLoop_absent api l rest w n hget]
      exact ih w n k1 hrest
    | some p =>
      cases he : (w.labels.deref p).Equals l with
      | true =>
        rw [updateLabelsLoop_equal api l rest w n p hget he]
        exact ih w n k1 hrest
      | false =>
        obtain ⟨hp, hpid⟩ := k1 l.Id p hget
        have hkeys := store_keeps_keys lower w.labels p l hp hpid
          (hnames l (List.mem_cons_self _ _) p hget)
        cases hapi : api.labelsPatch w.trace l.Id (updateLabelRequest l) with
        | error msg =>
          rw [updateLabelsLoop_update_failed api l rest w n p msg hget he hp hapi]
          exact ⟨rfl, rfl, by simp [labelMap.store], hkeys⟩
        | ok u =>
          rw [updateLabelsLoop_update api l rest w n p hget he hp hapi]
          have k1' : ∀ id q, (w.labels.store p l).GetByID id = some q →
              q < (w.labels.store p l).pool.length ∧ ((w.labels.store p l).deref q).Id = id := by
            intro id q hq
            obtain ⟨hq1, hq2⟩ := k1 id q hq
            exact ⟨by simpa [labelMap.store] using hq1, by rw [(hkeys q).1]; exact hq2⟩
          have hrest' : ∀ l' ∈ rest, ∀ q, (w.labels.store p l).GetByID l'.Id = some q →
              lower l'.Name = lower ((w.labels.store p l).deref q).Name := by
            intro l' hl' q hq
            rw [(hkeys q).2]
            exact hrest l' hl' q hq
          obtain ⟨h1, h2, h3, h4⟩ := ih
            { w with
              labels := w.labels.store p l
              trace := w.trace ++ [Call.labelsPatch l.Id (updateLabelRequest l)] } (n + 1)
            k1' hrest'
          refine ⟨h1, h2, by rw [h3]; simp [labelMap.store], ?_⟩
          intro q
          exact ⟨(h4 q).1.trans (hkeys q).1, (h4 q).2.trans (hkeys q).2⟩

/-- C18, as the code has it: the indices agree (an object of the pool is found by
GetByID under its Id exactly when it is found by GetByName under its Name) in the
empty directory; after Add of a label whose id and name are both new to a directory
whose indices agree; after createLabelIfDoesNotExist when a created label comes back
with a new id and the requested name up to case; and after updateLabels when every
local label keeps, up to case, the name of the entry found under its id. -/
theorem directory_indices_agree (lower : String → String) :
    labelMap.indexed lower {} ∧
    (∀ (m : labelMap) (l : label), labelMap.indexed lower m → m.GetByID l.Id = none →
      m.GetByName lower l.Name = none → labelMap.indexed lower (m.Add lower l)) ∧
    (∀ (api : Remote) (name : String) (w : World), labelMap.indexed lower w.labels →
      (∀ resp, api.labelsCreate w.trace { Name := name } = .ok resp →
        w.labels.GetByID resp.Id = none ∧ lower resp.Name = lower name) →
      labelMap.indexed lower (createLabelIfDoesNotExist lower api name w).2.labels) ∧
    (∀ (api : Remote) (localLabels : List label) (w : World),
      labelMap.indexed lower w.labels →
      (∀ l ∈ localLabels, ∀ p, w.labels.GetByID l.Id = some p →
        lower l.Name = lower (w.labels.deref p).Name) →
      labelMap.indexed lower (updateLabels api localLabels w).2.labels) ∧
    (∀ m : labelMap, labelMap.indexed lower m → ∀ p, p < m.pool.length →
      (m.GetByID (m.deref p).Id = some p ↔
        m.GetByName lower (m.deref p).Name = some p)) := by
  refine ⟨indexed_empty lower, indexed_Add lower, ?_, ?_, fun m h => h.2.2⟩
  · intro api name w h hresp
    cases h1 : w.labels.GetByName lower name with
    | some p => simpa [createLabelIfDoesNotExist, h1] using h
    | none =>
      cases h2 : api.labelsCreate w.trace { Name := name } with
      | error msg => simpa [createLabelIfDoesNotExist, h1, h2] using h
      | ok resp =>
        obtain ⟨hid, hname⟩ := hresp resp h2
        have hadd := indexed_Add lower w.labels (labelFromAPI lower resp) h
          (by rw [labelFromAPI_Id]; exact hid)
          (by
            rw [labelFromAPI_Name]
            simp only [labelMap.GetByName] at h1 ⊢
            rw [hname]; exact h1)
        simpa [createLabelIfDoesNotExist, h1, h2] using hadd
  · intro api localLabels w h hnames
    obtain ⟨h1, h2, h3, h4⟩ :=
      updateLabelsLoop_keeps_keys lower api localLabels w 0 h.1 hnames
    exact indexed_of_same_keys lower w.labels _ h h1 h2 h3 h4

/-- An instance of C18 as amended: the sample directory, built by one Add on the
empty directory, and its one label. -/
theorem directory_indices_agree_witness :
    labelMap.indexed asciiLower sampleWorld.labels ∧
    (sampleWorld.labels.GetByID (sampleWorld.labels.deref 0).Id = some 0 ↔
      sampleWorld.labels.GetByName asciiLower (sampleWorld.labels.deref 0).Name = some 0) :=
  have h := (directory_indices_agree asciiLower).2.1 {} sampleLabel
    (directory_indices_agree asciiLower).1 (by decide) (by decide)
  ⟨h, (directory_indices_agree asciiLower).2.2.2.2 sampleWorld.labels h 0 (by decide)⟩

/-- C18 as stated fails, in two ways. After updateLabels renames the label of the
sample directory, the renamed label is the value of byID at its Id and byName has
nothing at its lower-cased Name. After Add of two labels whose names differ only in
case, the first is the value of byID at its Id and byName holds the second at its
lower-cased Name. -/
theorem directory_indices_disagree :
    ((updateLabels sampleRemote [sampleLabelRenamed] sampleWorld).2.labels.GetByID
        sampleLabelRenamed.Id = some 0 ∧
      (updateLabels sampleRemote [sampleLabelRenamed] sampleWorld).2.labels.deref 0 =
        sampleLabelRenamed ∧
      (updateLabels sampleRemote [sampleLabelRenamed] sampleWorld).2.labels.GetByName
        asciiLower sampleLabelRenamed.Name = none) ∧
    (sampleWorldClash.labels.GetByID (sampleWorldClash.labels.deref 0).Id = some 0 ∧
      sampleWorldClash.labels.GetByName asciiLower (sampleWorldClash.labels.deref 0).Name =
        some 1) := by
  decide

/-! ### The exported labels -/

theorem labelRel_iff (a b : label) :
    (decide (label.Compare b a < 0) = false) ↔ a.Name ≤ b.Name := by
  simp only [label.Compare, decide_eq_false_iff_not, stringsCompare_neg, not_lt]

theorem labelRel_total :
    IsTotal label (fun a b => decide (label.Compare b a < 0) = false) :=
  ⟨fun a b => by
    simp only [labelRel_iff]
    exact le_total _ _⟩

theorem labelRel_trans :
    IsTrans label (fun a b => decide (label.Compare b a < 0) = false) :=
  ⟨fun a b c => by
    simp only [labelRel_iff]
    exact le_trans⟩

theorem label_Compare_nonpos (a b : label) : label.Compare a b ≤ 0 ↔ a.Name ≤ b.Name := by
  rw [← not_lt, ← not_lt]
  simp only [label.Compare, stringsCompare_pos]

theorem SliceStable_labels (labels : List label) :
    (SliceStable (fun a b => decide (label.Compare a b < 0)) labels).Perm labels ∧
    (SliceStable (fun a b => decide (label.Compare a b < 0)) labels).Pairwise
      (fun a b => a.Name ≤ b.Name ∧ label.Compare a b ≤ 0) := by
  haveI := labelRel_total
  haveI := labelRel_trans
  refine ⟨List.perm_insertionSort _ _, ?_⟩
  have h := List.sorted_insertionSort
    (fun a b => decide (label.Compare b a < 0) = false) labels
  exact List.Pairwise.imp
    (fun {a b} hab => ⟨(labelRel_iff a b).1 hab,
      (label_Compare_nonpos a b).2 ((labelRel_iff a b).1 hab)⟩) h

theorem mapGet_of_mem (m : List (String × Nat)) (hk : (m.map Prod.fst).Nodup) (k : String)
    (p : Nat) (h : (k, p) ∈ m) : mapGet m k = some p := by
  induction m with
  | nil => simp at h
  | cons e rest ih =>
    obtain ⟨a, b⟩ := e
    simp only [List.map_cons, List.nodup_cons] at hk
    rcases List.mem_cons.1 h with h' | h'
    · cases h'
      simp [mapGet]
    · have hne : a ≠ k := by
        intro hak
        subst hak
        exact hk.1 (List.mem_map.2 ⟨(a, p), h', rfl⟩)
      simp only [mapGet, hne, if_false]
      exact ih hk.2 h'

theorem aligned_iff (m : labelMap) :
    m.aligned = true ↔
      m.wellFormed = true ∧ (m.byID.map Prod.fst).Nodup ∧
      (m.byName.map Prod.snd).Perm (m.byID.map Prod.snd) := by
  simp [labelMap.aligned, and_assoc]

theorem mapGet_none_cons (a k : String) (b : Nat) (rest : List (String × Nat))
    (h : mapGet ((a, b) :: rest) k = none) : a ≠ k ∧ mapGet rest k = none := by
  by_cases hk : a = k
  · simp [mapGet, hk] at h
  · simp only [mapGet, hk, if_false] at h
    exact ⟨hk, h⟩

theorem mapGet_none_not_mem (m : List (String × Nat)) (k : String)
    (h : mapGet m k = none) : k ∉ m.map Prod.fst := by
  induction m with
  | nil => simp
  | cons e rest ih =>
    obtain ⟨a, b⟩ := e
    obtain ⟨hk, hrest⟩ := mapGet_none_cons a k b rest h
    simp only [List.map_cons, List.mem_cons, not_or]
    exact ⟨fun h' => hk h'.symm, ih hrest⟩

theorem mapSet_of_absent (m : List (String × Nat)) (k : String) (v : Nat)
    (h : mapGet m k = none) : mapSet m k v = (k, v) :: m := by
  have hf : m.filter (fun e => decide (e.1 ≠ k)) = m := by
    induction m with
    | nil => rfl
    | cons e rest ih =>
      obtain ⟨a, b⟩ := e
      obtain ⟨hk, hrest⟩ := mapGet_none_cons a k b rest h
      have hd : decide ((a, b).1 ≠ k) = true := by simp [hk]
      rw [List.filter_cons, hd, if_pos rfl, ih hrest]
  simp only [mapSet, hf]

theorem aligned_empty : ({} : labelMap).aligned = true := by
  decide

theorem aligned_Add (lower : String → String) (m : labelMap) (l : label)
    (h : m.aligned = true) (hid : m.GetByID l.Id = none)
    (hname : m.GetByName lower l.Name = none) : (m.Add lower l).aligned = true := by
  rw [aligned_iff] at h ⊢
  obtain ⟨hwf, hkeys, hperm⟩ := h
  have h1 : (m.Add lower l).byID = (l.Id, m.pool.length) :: m.byID := by
    simp only [labelMap.Add]
    exact mapSet_of_absent _ _ _ hid
  have h2 : (m.Add lower l).byName = (lower l.Name, m.pool.length) :: m.byName := by
    simp only [labelMap.Add]
    exact mapSet_of_absent _ _ _ hname
  refine ⟨wellFormed_Add lower m l hwf, ?_, ?_⟩
  · rw [h1, List.map_cons, List.nodup_cons]
    exact ⟨mapGet_none_not_mem _ _ hid, hkeys⟩
  · rw [h1, h2, List.map_cons, List.map_cons]
    exact List.Perm.cons _ hperm

theorem aligned_congr (m m' : labelMap) (h1 : m'.byID = m.byID) (h2 : m'.byName = m.byName)
    (h3 : m'.pool.length = m.pool.length) : m'.aligned = m.aligned := by
  simp only [labelMap.aligned, wellFormed_congr m m' h1 h3, h1, h2]

theorem foldl_Add_aligned (lower : String → String) (ls : List gmailLabel) :
    ∀ m : labelMap, m.aligned = true →
      (∀ lbl ∈ ls, m.GetByID lbl.Id = none ∧ m.GetByName lower lbl.Name = none) →
      (ls.map (fun lbl => lbl.Id)).Nodup → (ls.map (fun lbl => lower lbl.Name)).Nodup →
      (ls.foldl (fun m lbl => labelMap.Add lower m (labelFromAPI lower lbl)) m).aligned
        = true := by
  induction ls with
  | nil => intro m h _ _ _; exact h
  | cons x rest ih =>
    intro m h hfresh hids hnames
    simp only [List.map_cons, List.nodup_cons] at hids hnames
    obtain ⟨hx1, hx2⟩ := hfresh x (List.mem_cons_self _ _)
    rw [List.foldl_cons]
    apply ih
    · exact aligned_Add lower m _ h (by rw [labelFromAPI_Id]; exact hx1)
        (by rw [labelFromAPI_Name]; exact hx2)
    · intro lbl hlbl
      obtain ⟨hl1, hl2⟩ := hfresh lbl (List.mem_cons_of_mem _ hlbl)
      have hne1 : lbl.Id ≠ (labelFromAPI lower x).Id := by
        rw [labelFromAPI_Id]
        intro heq
        exact hids.1 (List.mem_map.2 ⟨lbl, hlbl, heq⟩)
      have hne2 : lower lbl.Name ≠ lower (labelFromAPI lower x).Name := by
        rw [labelFromAPI_Name]
        intro heq
        exact hnames.1 (List.mem_map.2 ⟨lbl, hlbl, heq⟩)
      rw [GetByID_Add_other lower m _ _ hne1, GetByName_Add_other lower m _ _ hne2]
      exact ⟨hl1, hl2⟩
    · exact hids.2
    · exact hnames.2

theorem getLabelMap_aligned (lower : String → String) (api : Remote) (w : World)
    (labelList : List gmailLabel) (hlist : api.labelsList w.trace = .ok labelList)
    (hids : (labelList.map (fun lbl => lbl.Id)).Nodup)
    (hnames : (labelList.map (fun lbl => lower lbl.Name)).Nodup) :
    (getLabelMap lower api w).2.labels.aligned = true := by
  have h := foldl_Add_aligned lower labelList {} aligned_empty
    (fun lbl _ => ⟨rfl, rfl⟩) hids hnames
  simpa [getLabelMap, hlist] using h

theorem createLabelIfDoesNotExist_aligned (lower : String → String) (api : Remote)
    (name : String) (w : World) (h : w.labels.aligned = true)
    (hresp : ∀ resp, api.labelsCreate w.trace { Name := name } = .ok resp →
      w.labels.GetByID resp.Id = none ∧ w.labels.GetByName lower resp.Name = none) :
    (createLabelIfDoesNotExist lower api name w).2.labels.aligned = true := by
  cases h1 : w.labels.GetByName lower name with
  | some p => simpa [createLabelIfDoesNotExist, h1] using h
  | none =>
    cases h2 : api.labelsCreate w.trace { Name := name } with
    | error msg => simpa [createLabelIfDoesNotExist, h1, h2] using h
    | ok resp =>
      obtain ⟨hid, hname⟩ := hresp resp h2
      have hadd := aligned_Add lower w.labels (labelFromAPI lower resp) h
        (by rw [labelFromAPI_Id]; exact hid) (by rw [labelFromAPI_Name]; exact hname)
      simpa [createLabelIfDoesNotExist, h1, h2] using hadd

theorem updateLabelsLoop_aligned (api : Remote) (ls : List label) (w : World) (n : Nat)
    (h : w.labels.aligned = true) :
    (updateLabelsLoop api ls w n).2.1.labels.aligned = true := by
  obtain ⟨h1, h2, h3, -, -⟩ := updateLabelsLoop_frame api ls w n ((aligned_iff _).1 h).1
  rw [aligned_congr _ _ h1 h2 h3]
  exact h

/-- C19: for a directory of the shape the program builds (well-formed, byID with
distinct keys, byName holding the same objects as byID), when the file can be created
and encoded, the label sequence writeLabelsToFile encodes holds every label reachable
through GetByID exactly once and nothing else, and is non-decreasing in Name; ranging
over byName in any other order gives a sequence with the same labels, sorted as
well. -/
theorem writeLabelsToFile_sorted (fsys : Files) (file : String) (w : World)
    (hc : fsys.create file = .ok ()) (he : fsys.encode file = .ok ())
    (ha : w.labels.aligned = true) :
    ∃ lf : List label,
      writeLabelsToFile fsys file w =
        (.ok (), { w with files := w.files ++ [(file, Encoded.labelFile lf)] }) ∧
      (∃ ptrs : List Nat, ptrs.Nodup ∧
        (∀ p, p ∈ ptrs ↔ ∃ id, w.labels.GetByID id = some p) ∧
        lf.Perm (ptrs.map w.labels.deref)) ∧
      lf.Pairwise (fun a b => a.Name ≤ b.Name ∧ label.Compare a b ≤ 0) ∧
      (∀ order : List (String × Nat), order.Perm w.labels.byName →
        (SliceStable (fun a b => decide (label.Compare a b < 0))
          (order.map (fun e => w.labels.deref e.2))).Perm lf ∧
        (SliceStable (fun a b => decide (label.Compare a b < 0))
          (order.map (fun e => w.labels.deref e.2))).Pairwise
            (fun a b => a.Name ≤ b.Name ∧ label.Compare a b ≤ 0)) := by
  obtain ⟨hwf, hkeys, hsame⟩ := (aligned_iff _).1 ha
  obtain ⟨hperm, hsorted⟩ :=
    SliceStable_labels (w.labels.byName.map (fun e => w.labels.deref e.2))
  refine ⟨SliceStable (fun a b => decide (label.Compare a b < 0))
    (w.labels.byName.map (fun e => w.labels.deref e.2)), ?_, ?_, hsorted, ?_⟩
  · simp [writeLabelsToFile, hc, he]
  · refine ⟨w.labels.byID.map Prod.snd, ?_, ?_, ?_⟩
    · simp only [labelMap.wellFormed, Bool.and_eq_true, decide_eq_true_eq] at hwf
      exact hwf.2
    · intro p
      constructor
      · intro hp
        obtain ⟨e, he', hep⟩ := List.mem_map.1 hp
        obtain ⟨k, q⟩ := e
        simp only at hep
        subst hep
        exact ⟨k, mapGet_of_mem _ hkeys k q he'⟩
      · rintro ⟨id, hid⟩
        exact List.mem_map.2 ⟨(id, p), mapGet_mem _ _ _ hid, rfl⟩
    · have h1 : (w.labels.byName.map (fun e => w.labels.deref e.2)) =
          (w.labels.byName.map Prod.snd).map w.labels.deref := by
        simp [List.map_map, Function.comp_def]
      have h2 := hsame.map w.labels.deref
      rw [← h1] at h2
      exact hperm.trans h2
  · intro order ho
    obtain ⟨hp, hs⟩ := SliceStable_labels (order.map (fun e => w.labels.deref e.2))
    exact ⟨hp.trans ((ho.map _).trans hperm.symm), hs⟩

/-- An instance of C19: the directory with "alpha" and "zeta", ranged over from
"zeta", is written as "alpha", "zeta". -/
theorem writeLabelsToFile_sorted_witness :
    (writeLabelsToFile sampleFiles "labels.toml" sampleWorldTwo).2.files =
      [("labels.toml", Encoded.labelFile
        [{ Id := "Label_1", Name := "alpha", Type_ := "user" },
         { Id := "Label_2", Name := "zeta", Type_ := "user" }])] ∧
    ∃ lf : List label,
      writeLabelsToFile sampleFiles "labels.toml" sampleWorldTwo =
        (.ok (), { sampleWorldTwo with
          files := sampleWorldTwo.files ++ [("labels.toml", Encoded.labelFile lf)] }) ∧
      ∃ ptrs : List Nat, ptrs.Nodup ∧
        (∀ p, p ∈ ptrs ↔ ∃ id, sampleWorldTwo.labels.GetByID id = some p) ∧
        lf.Perm (ptrs.map sampleWorldTwo.labels.deref) :=
  ⟨by decide,
   match writeLabelsToFile_sorted sampleFiles "labels.toml" sampleWorldTwo rfl rfl
     (by decide) with
   | ⟨lf, h1, h2, _, _⟩ => ⟨lf, h1, h2⟩⟩

/-! ### What `Equals` decides -/

theorem Equals_iff (l o : label) :
    l.Equals o = true ↔
      l.Id = o.Id ∧ l.Name = o.Name ∧ l.BackgroundColor = o.BackgroundColor ∧
      l.TextColor = o.TextColor ∧ l.Type_ = o.Type_ ∧
      (l.MessageListVisibility = o.MessageListVisibility ∨
        (l.MessageListVisibility = "show" ∧ o.MessageListVisibility = "")) ∧
      (l.LabelListVisibility = o.LabelListVisibility ∨
        (l.LabelListVisibility = "show" ∧ o.LabelListVisibility = "")) := by
  constructor
  · intro h
    obtain ⟨i, n, b, t, llv, mlv, ty⟩ := l
    obtain ⟨i', n', b', t', llv', mlv', ty'⟩ := o
    simp only [label.Equals, decide_eq_true_eq] at h
    by_cases hm : mlv = "show" ∧ mlv' = ""
    · rw [if_pos hm] at h
      by_cases hl : llv = "show" ∧ llv' = ""
      · rw [if_pos hl] at h
        simp only [label.mk.injEq] at h
        exact ⟨h.1, h.2.1, h.2.2.1, h.2.2.2.1, h.2.2.2.2.2.2, Or.inr hm, Or.inr hl⟩
      · rw [if_neg hl] at h
        simp only [label.mk.injEq] at h
        exact ⟨h.1, h.2.1, h.2.2.1, h.2.2.2.1, h.2.2.2.2.2.2, Or.inr hm, Or.inl h.2.2.2.2.1⟩
    · rw [if_neg hm] at h
      by_cases hl : llv = "show" ∧ llv' = ""
      · rw [if_pos hl] at h
        simp only [label.mk.injEq] at h
        exact ⟨h.1, h.2.1, h.2.2.1, h.2.2.2.1, h.2.2.2.2.2.2, Or.inl h.2.2.2.2.2.1, Or.inr hl⟩
      · rw [if_neg hl] at h
        simp only [label.mk.injEq] at h
        exact ⟨h.1, h.2.1, h.2.2.1, h.2.2.2.1, h.2.2.2.2.2.2, Or.inl h.2.2.2.2.2.1,
          Or.inl h.2.2.2.2.1⟩
  · rintro ⟨h1, h2, h3, h4, h5, h6, h7⟩
    exact Equals_of_agree l o h1 h2 h3 h4 h5 h6 h7

/-- C21: l.Equals(o) is true exactly when l and o agree on Id, Name, BackgroundColor,
TextColor and Type and each of MessageListVisibility and LabelListVisibility is equal
on both or "show" on l and "" on o. So Equals is reflexive and transitive, and
l.Equals(o) is false whenever a visibility is "" on l and "show" on o. -/
theorem label_Equals_iff (l o : label) :
    (l.Equals o = true ↔
      l.Id = o.Id ∧ l.Name = o.Name ∧ l.BackgroundColor = o.BackgroundColor ∧
      l.TextColor = o.TextColor ∧ l.Type_ = o.Type_ ∧
      (l.MessageListVisibility = o.MessageListVisibility ∨
        (l.MessageListVisibility = "show" ∧ o.MessageListVisibility = "")) ∧
      (l.LabelListVisibility = o.LabelListVisibility ∨
        (l.LabelListVisibility = "show" ∧ o.LabelListVisibility = ""))) ∧
    l.Equals l = true ∧
    (∀ p : label, l.Equals o = true → o.Equals p = true → l.Equals p = true) ∧
    (l.MessageListVisibility = "" → o.MessageListVisibility = "show" → l.Equals o = false) ∧
    (l.LabelListVisibility = "" → o.LabelListVisibility = "show" → l.Equals o = false) := by
  have hne : ("" : String) ≠ "show" := by decide
  have step : ∀ a b c : String, (a = b ∨ (a = "show" ∧ b = "")) →
      (b = c ∨ (b = "show" ∧ c = "")) → (a = c ∨ (a = "show" ∧ c = "")) := by
    intro a b c hab hbc
    rcases hab with hab | ⟨ha, hb⟩
    · rw [hab]; exact hbc
    · rcases hbc with hbc | ⟨hb', -⟩
      · exact Or.inr ⟨ha, by rw [← hbc]; exact hb⟩
      · rw [hb] at hb'; exact absurd hb' hne
  refine ⟨Equals_iff l o, Equals_self l, ?_, ?_, ?_⟩
  · intro p hlo hop
    rw [Equals_iff] at hlo hop ⊢
    obtain ⟨a1, a2, a3, a4, a5, a6, a7⟩ := hlo
    obtain ⟨b1, b2, b3, b4, b5, b6, b7⟩ := hop
    exact ⟨a1.trans b1, a2.trans b2, a3.trans b3, a4.trans b4, a5.trans b5,
      step _ _ _ a6 b6, step _ _ _ a7 b7⟩
  · intro hl ho
    cases he : l.Equals o with
    | false => rfl
    | true =>
      exfalso
      obtain ⟨-, -, -, -, -, h6, -⟩ := (Equals_iff l o).1 he
      rcases h6 with h | ⟨h, -⟩
      · rw [hl, ho] at h; exact hne h
      · rw [hl] at h; exact hne h
  · intro hl ho
    cases he : l.Equals o with
    | false => rfl
    | true =>
      exfalso
      obtain ⟨-, -, -, -, -, -, h7⟩ := (Equals_iff l o).1 he
      rcases h7 with h | ⟨h, -⟩
      · rw [hl, ho] at h; exact hne h
      · rw [hl] at h; exact hne h

/-- An instance of C21: the sample label against itself with MessageListVisibility
"show" is not equal, and the transitive step from the label with "show" through the
sample label to itself. -/
theorem label_Equals_iff_witness :
    label.Equals sampleLabel { sampleLabel with MessageListVisibility := "show" } = false ∧
    label.Equals { sampleLabel with MessageListVisibility := "show" } sampleLabel = true :=
  ⟨(label_Equals_iff sampleLabel { sampleLabel with MessageListVisibility := "show" }).2.2.2.1
      rfl rfl,
   (label_Equals_iff { sampleLabel with MessageListVisibility := "show" } sampleLabel).2.2.1
      sampleLabel (by decide) (by decide)⟩

end Gmailfilters
